import Mathlib

/-!
# LifeSim: the universe model (`universe.c`) and the evolution driver (`life.c`)

A shallow embedding of the two C source files.

* `uint32_t` values are natural numbers below `UINT32_MOD`; arithmetic that can
  wrap (`r - 1`, `r + 1`, `u->rows - 1`, `num_live_neighbors++`, `i++` in the
  census loops) is written with `add32` / `sub32`.
* `bool **grid` is a function from a row and a column index to `Bool`: the
  value of `u->grid[r][c]`.  Every access of the source is guarded by
  `r < u->rows && c < u->cols`, so only those indices are ever read or written.
* The two `Universe` objects allocated by `main` live in a two-cell `Heap`;
  the `Universe *` pointers handed to `play_game` are values of `Ref`.
* The census loops `for (i = lo; i <= hi; i++)` over `uint32_t` need not
  terminate (when `hi = 2^32 - 1`), so they carry fuel and return `Option`.
-/

namespace LifeSim

/-! ## Machine integers -/

/-- Number of values of a `uint32_t`. -/
def UINT32_MOD : Nat := 4294967296

/-- Addition of two `uint32_t` values. -/
def add32 (a b : Nat) : Nat := (a + b) % UINT32_MOD

/-- Subtraction of two `uint32_t` values (`a, b < 2^32`). -/
def sub32 (a b : Nat) : Nat := (a + UINT32_MOD - b) % UINT32_MOD

/-! ## Loops -/

/-- The loop `for (uint32_t i = start; i <= hi; i++) body`, started at counter
value `i`, with at most `fuel` evaluations of the loop condition. -/
def for_le32 {σ : Type} (body : Nat → σ → Option σ) (hi : Nat) : Nat → Nat → σ → Option σ
  | 0, _, _ => none
  | fuel + 1, i, s =>
    if i ≤ hi then
      (body i s).bind (fun s1 => for_le32 body hi fuel (add32 i 1) s1)
    else some s

/-- Runs `body` for the successive counter values of a list. -/
def for_each {σ : Type} (body : Nat → σ → Option σ) : List Nat → σ → Option σ
  | [], s => some s
  | i :: rest, s => (body i s).bind (fun s1 => for_each body rest s1)

/-- The loop `for (uint32_t i = 0; i < n; i++) body` for a `uint32_t` bound
`n`: the counter stays below `n`, so `i++` never wraps. -/
def for_lt {σ : Type} (body : Nat → σ → Option σ) (n : Nat) (s : σ) : Option σ :=
  for_each body (List.range n) s

/-! ## `universe.c` -/

/-- The `struct Universe`. -/
structure Universe where
  rows : Nat
  cols : Nat
  grid : Nat → Nat → Bool
  toroidal : Bool

/-- Both dimensions are `uint32_t` values. -/
def Universe.WF (u : Universe) : Prop := u.rows < UINT32_MOD ∧ u.cols < UINT32_MOD

instance (u : Universe) : Decidable u.WF := by
  unfold Universe.WF; exact inferInstance

/-- `uv_create`: `calloc` zeroes the struct and every row; `u->rows` and
`u->cols` are assigned.  `locals` holds the two variables in scope, the object
behind `u` and the parameter `toroidal`: the statement `toroidal = false;`
assigns the parameter, so `u->toroidal` keeps the zero of `calloc`. -/
def uv_create (rows cols : Nat) (toroidal : Bool) : Universe :=
  let u : Universe := { rows := 0, cols := 0, grid := fun _ _ => false, toroidal := false }
  let u := { u with rows := rows }
  let u := { u with cols := cols }
  let locals : Universe × Bool := (u, toroidal)
  let locals : Universe × Bool := (locals.1, false)
  locals.1

/-- `uv_rows`. -/
def uv_rows (u : Universe) : Nat := u.rows

/-- `uv_cols`. -/
def uv_cols (u : Universe) : Nat := u.cols

/-- `uv_live_cell`. -/
def uv_live_cell (u : Universe) (r c : Nat) : Universe :=
  if 0 ≤ r ∧ r < u.rows ∧ 0 ≤ c ∧ c < u.cols then
    { u with grid := fun i j => if i = r ∧ j = c then true else u.grid i j }
  else u

/-- `uv_dead_cell`. -/
def uv_dead_cell (u : Universe) (r c : Nat) : Universe :=
  if 0 ≤ r ∧ r < u.rows ∧ 0 ≤ c ∧ c < u.cols then
    { u with grid := fun i j => if i = r ∧ j = c then false else u.grid i j }
  else u

/-- `uv_get_cell`. -/
def uv_get_cell (u : Universe) (r c : Nat) : Bool :=
  if 0 ≤ r ∧ r < u.rows ∧ 0 ≤ c ∧ c < u.cols then u.grid r c else false

/-- The loop of `uv_populate`.  The input file is the list of the pairs still
to be read; `r` and `c` are the current values of the locals.  At end of file
both `fscanf` calls return `EOF` and store nothing, so the check and the write
run once more on the values the locals already hold, and the loop then ends. -/
def uv_populate_loop (u : Universe) (num_rows num_cols : Nat) :
    Nat → Nat → List (Nat × Nat) → Bool × Universe
  | r, c, [] =>
    if r < 0 ∨ r ≥ num_rows ∨ c < 0 ∨ c ≥ num_cols then (false, u)
    else (true, uv_live_cell u r c)
  | _, _, (r, c) :: rest =>
    if r < 0 ∨ r ≥ num_rows ∨ c < 0 ∨ c ≥ num_cols then (false, u)
    else uv_populate_loop (uv_live_cell u r c) num_rows num_cols r c rest

/-- `uv_populate`.  `r0` and `c0` are the values the uninitialised locals `r`
and `c` happen to hold on entry; `infile` is the sequence of pairs in the file.
The result is the returned flag and the universe afterwards. -/
def uv_populate (u : Universe) (r0 c0 : Nat) (infile : List (Nat × Nat)) : Bool × Universe :=
  let num_rows := uv_rows u
  let num_cols := uv_cols u
  uv_populate_loop u num_rows num_cols r0 c0 infile

/-- Body of the inner census loop over the column `j` of row `i`. -/
def census_cell (u : Universe) (r c i j : Nat) (num_live_neighbors : Nat) : Nat :=
  if i = r ∧ j = c then num_live_neighbors
  else if uv_get_cell u i j = true then add32 num_live_neighbors 1
  else num_live_neighbors

/-- The four wrap-around checks at the end of `uv_census`. -/
def census_wrap (u : Universe) (r c : Nat) (n : Nat) : Nat :=
  let n :=
    if r = 0 ∧ u.toroidal = true then
      if uv_get_cell u (sub32 u.rows 1) c = true then add32 n 1 else n
    else n
  let n :=
    if r = sub32 u.rows 1 ∧ u.toroidal = true then
      if uv_get_cell u 0 c = true then add32 n 1 else n
    else n
  let n :=
    if c = 0 ∧ r ≠ 0 ∧ r ≠ sub32 u.rows 1 ∧ u.toroidal = true then
      if uv_get_cell u r (sub32 u.cols 1) = true then add32 n 1 else n
    else n
  let n :=
    if c = sub32 u.cols 1 ∧ r ≠ 0 ∧ r ≠ sub32 u.rows 1 ∧ u.toroidal = true then
      if uv_get_cell u r 0 = true then add32 n 1 else n
    else n
  n

/-- `uv_census`.  Each of its two loops is allowed `fuel` evaluations of its
condition; the result is `none` when a loop does not end within them. -/
def uv_census (fuel : Nat) (u : Universe) (r c : Nat) : Option Nat :=
  let num_live_neighbors := 0
  let row_low := sub32 r 1
  let row_high := add32 r 1
  let col_low := sub32 c 1
  let col_high := add32 c 1
  let row_low := if r = 0 then 0 else row_low
  let col_low := if c = 0 then 0 else col_low
  let row_high := if r = sub32 u.rows 1 then sub32 u.rows 1 else row_high
  let col_high := if c = sub32 u.cols 1 then sub32 u.cols 1 else col_high
  (for_le32
    (fun i n => for_le32 (fun j n => some (census_cell u r c i j n)) col_high fuel col_low n)
    row_high fuel row_low num_live_neighbors).map (census_wrap u r c)

/-- One line of `uv_print`: the inner loop over the columns. -/
def uv_print_row (u : Universe) (r : Nat) (out : List Char) : List Char :=
  (List.range u.cols).foldl
    (fun out c => if uv_get_cell u r c = true then out ++ ['o'] else out ++ ['.']) out

/-- `uv_print`: the characters appended to `outfile`. -/
def uv_print (u : Universe) (outfile : List Char) : List Char :=
  (List.range u.rows).foldl (fun out r => uv_print_row u r out ++ ['\n']) outfile

/-! ## `life.c` -/

/-- A `Universe *`: which of the two objects allocated by `main`. -/
inductive Ref where
  | A
  | B
  deriving DecidableEq, Repr

/-- The two `Universe` objects allocated by `main`. -/
structure Heap where
  objA : Universe
  objB : Universe

/-- Dereference a pointer. -/
def Heap.read (h : Heap) : Ref → Universe
  | Ref.A => h.objA
  | Ref.B => h.objB

/-- Store through a pointer. -/
def Heap.write (h : Heap) (p : Ref) (u : Universe) : Heap :=
  match p with
  | Ref.A => { h with objA := u }
  | Ref.B => { h with objB := u }

/-- Body of the two inner loops of `play_game` for the cell `(i, j)`. -/
def play_cell (fuel : Nat) (uA uB : Ref) (i j : Nat) (h : Heap) : Option Heap :=
  (uv_census fuel (h.read uA) i j).bind fun live_neighbor_count =>
    if live_neighbor_count = 3 ∨ (live_neighbor_count = 2 ∧ uv_get_cell (h.read uA) i j = true) then
      some (h.write uB (uv_live_cell (h.read uB) i j))
    else
      some (h.write uB (uv_dead_cell (h.read uB) i j))

/-- `show_evolution`: draws the live cells of `uA` on the terminal and waits;
the universes are only read. -/
def show_evolution (_uA : Ref) (h : Heap) : Heap := h

/-- The two inner loops of `play_game`: the pass over every cell of `uA`. -/
def play_generation (fuel : Nat) (uA uB : Ref) (h : Heap) : Option Heap :=
  for_lt (fun i h => for_lt (fun j h => play_cell fuel uA uB i j h) (uv_cols (h.read uA)) h)
    (uv_rows (h.read uA)) h

/-- The loop of `play_game` with `n` generations left; `uA` and `uB` are the
local pointer variables, exchanged at the end of every iteration. -/
def play_game_loop (fuel : Nat) (silent : Bool) : Nat → Ref → Ref → Heap → Option Heap
  | 0, _, _, h => some h
  | n + 1, uA, uB, h =>
    (play_generation fuel uA uB h).bind fun h1 =>
      let h1 := if silent = false then show_evolution uA h1 else h1
      let temp := uA
      let uA := uB
      let uB := temp
      play_game_loop fuel silent n uA uB h1

/-- `play_game`: the heap when the function returns.  The pointers are passed
by value, so the caller keeps its own `uA` and `uB`. -/
def play_game (fuel : Nat) (num_generations : Nat) (uA uB : Ref) (silent : Bool) (h : Heap) :
    Option Heap :=
  play_game_loop fuel silent num_generations uA uB h

/-! ## Specification-side definitions -/

/-- The cell at the integer position `(i, j)` lies inside
`[0, rows) x [0, cols)` and is alive. -/
def alive_at (u : Universe) (i j : Int) : Bool :=
  decide (0 ≤ i ∧ i < u.rows ∧ 0 ≤ j ∧ j < u.cols) && u.grid i.toNat j.toNat

/-- The offsets of a neighbourhood in one direction. -/
def offsets : List Int := [-1, 0, 1]

/-- The flat census written after the specification: the number of live cells
among `(r + dr, c + dc)`, `dr, dc` in `{-1, 0, 1}`, `(dr, dc) ≠ (0, 0)`, that
lie inside the grid. -/
def clipped_count (u : Universe) (r c : Nat) : Nat :=
  (offsets.map fun dr =>
    (offsets.map fun dc =>
      if (dr, dc) ≠ (0, 0) ∧ alive_at u (r + dr) (c + dc) = true then 1 else 0).sum).sum

/-- The wrap-around additions of the toroidal census written after the
specification. -/
def wrap_count (u : Universe) (r c : Nat) : Nat :=
  (if r = 0 ∧ uv_get_cell u (u.rows - 1) c = true then 1 else 0)
  + (if r = u.rows - 1 ∧ uv_get_cell u 0 c = true then 1 else 0)
  + (if c = 0 ∧ r ≠ 0 ∧ r ≠ u.rows - 1 ∧ uv_get_cell u r (u.cols - 1) = true then 1 else 0)
  + (if c = u.cols - 1 ∧ r ≠ 0 ∧ r ≠ u.rows - 1 ∧ uv_get_cell u r 0 = true then 1 else 0)

/-- Lower end of a census range as `uv_census` computes it: `x - 1`, reset to
`0` when `x == 0`. -/
def census_low (x : Nat) : Nat := if x = 0 then 0 else sub32 x 1

/-- Upper end of a census range as `uv_census` computes it: `x + 1`, reset to
`size - 1` when `x == size - 1`. -/
def census_high (x size : Nat) : Nat :=
  if x = sub32 size 1 then sub32 size 1 else add32 x 1

/-- The counter values visited by a census loop around `x` in a dimension of
`size` cells. -/
def census_range (x size : Nat) : List Nat :=
  if x = 0 then (if x + 1 = size then [x] else [x, x + 1])
  else (if x + 1 = size then [x - 1, x] else [x - 1, x, x + 1])

/-- The contribution of the cell `(i, j)` to the census of `(r, c)`. -/
def census_term (u : Universe) (r c i j : Nat) : Nat :=
  if ¬ (i = r ∧ j = c) ∧ uv_get_cell u i j = true then 1 else 0

/-- The count accumulated by the two nested census loops. -/
def block_count (u : Universe) (r c : Nat) : Nat :=
  ((census_range r u.rows).map fun i =>
    ((census_range c u.cols).map fun j => census_term u r c i j).sum).sum

/-- A universe built from a list of live cells, with the given topology flag. -/
def universe_of (rows cols : Nat) (toroidal : Bool) (live : List (Nat × Nat)) : Universe :=
  live.foldl (fun u p => uv_live_cell u p.1 p.2)
    { uv_create rows cols toroidal with toroidal := toroidal }

/-- A flat 3x3 universe with only the centre alive. -/
def centre3 : Universe := universe_of 3 3 false [(1, 1)]

/-- A 3x3 universe with the toroidal flag set and only `(2, 0)` alive. -/
def torus3 : Universe := universe_of 3 3 true [(2, 0)]

/-- The rule of one generation for the cell `(i, j)` of the current buffer. -/
def rule_alive (fuel : Nat) (a : Universe) (i j : Nat) : Prop :=
  uv_census fuel a i j = some 3 ∨ (uv_census fuel a i j = some 2 ∧ uv_get_cell a i j = true)

/-- Progress of a generation pass that is about to visit the cell `(i, j)`:
the current buffer still is `a`, the next buffer has its dimensions and the
topology flag `tB` it started with, and every cell visited so far holds the
outcome of the rule. -/
def pass_done (fuel : Nat) (a : Universe) (tB : Bool) (uA uB : Ref) (i j : Nat) (h : Heap) :
    Prop :=
  h.read uA = a ∧ (h.read uB).rows = a.rows ∧ (h.read uB).cols = a.cols
    ∧ (h.read uB).toroidal = tB
    ∧ ∀ i1 j1, i1 < a.rows → j1 < a.cols → (i1 < i ∨ (i1 = i ∧ j1 < j)) →
        (uv_get_cell (h.read uB) i1 j1 = true ↔ rule_alive fuel a i1 j1)

/-- The two universes have the same dimensions, topology flag and cells. -/
def same_cells (u v : Universe) : Prop :=
  u.rows = v.rows ∧ u.cols = v.cols ∧ u.toroidal = v.toroidal
    ∧ ∀ i j, uv_get_cell u i j = uv_get_cell v i j

/-- The census written after the specification: the clipped count, plus the
wrap-around additions in a toroidal universe. -/
def neighbor_count (u : Universe) (r c : Nat) : Nat :=
  clipped_count u r c + (if u.toroidal = true then wrap_count u r c else 0)

/-- The one-generation transition rule written after the specification: alive
with 2 or 3 neighbours stays alive, dead with exactly 3 neighbours becomes
alive, every other cell is dead. -/
def next_generation (u : Universe) : Universe :=
  { u with grid := fun i j =>
      (uv_get_cell u i j && (neighbor_count u i j == 2 || neighbor_count u i j == 3))
        || (!uv_get_cell u i j && neighbor_count u i j == 3) }

/-- The transition rule applied `n` times. -/
def generations : Nat → Universe → Universe
  | 0, u => u
  | n + 1, u => generations n (next_generation u)

/-- A flat 3x3 universe holding a vertical blinker. -/
def blinker3 : Universe := universe_of 3 3 false [(0, 1), (1, 1), (2, 1)]

/-- The heap of `main` before `play_game`: the populated universe and a fresh
one of the same dimensions. -/
def blinker_heap : Heap := { objA := blinker3, objB := uv_create 3 3 false }

/-- The pair `p` lies inside the grid of `u`. -/
def in_range (u : Universe) (p : Nat × Nat) : Bool := decide (p.1 < u.rows ∧ p.2 < u.cols)

/-- The character `uv_print` writes for the cell `(r, c)`. -/
def cell_char (u : Universe) (r c : Nat) : Char := if uv_get_cell u r c = true then 'o' else '.'

/-- The live cells of a universe in row-major order. -/
def live_cells (u : Universe) : List (Nat × Nat) :=
  ((List.range u.rows).map fun i =>
    ((List.range u.cols).filter fun j => uv_get_cell u i j).map fun j => (i, j)).flatten

/-- A flat 5x5 universe seeded with the standard glider. -/
def glider5 : Universe := universe_of 5 5 false [(0, 1), (1, 2), (2, 0), (2, 1), (2, 2)]

/-- The heap of `main` before `play_game` on the glider: the populated
universe and a fresh one of the same dimensions. -/
def glider_heap : Heap := { objA := glider5, objB := uv_create 5 5 false }

/-- A heap like `blinker_heap` whose next buffer holds stale live cells. -/
def stale_heap : Heap := { objA := blinker3, objB := universe_of 3 3 false [(0, 0), (2, 2)] }

/-- A universe of one row and three columns with the toroidal flag set and
only `(0, 0)` alive. -/
def ring3 : Universe := universe_of 1 3 true [(0, 0)]

/-- A 3x3 universe with the toroidal flag set and only `(0, 2)` alive. -/
def torus3_col : Universe := universe_of 3 3 true [(0, 2)]

/-- The number of cells of a list that are alive. -/
def count_live (u : Universe) (cells : List (Nat × Nat)) : Nat :=
  (cells.filter fun p => uv_get_cell u p.1 p.2).length

/-- A universe of a single cell with the toroidal flag set, the cell dead. -/
def point_torus : Universe := universe_of 1 1 true []

/-! ## Loop lemmas -/

theorem add32_succ (i : Nat) (h : i + 1 < UINT32_MOD) : add32 i 1 = i + 1 := by
  unfold add32; exact Nat.mod_eq_of_lt h

theorem sub32_one (x : Nat) (h0 : 0 < x) (h : x < UINT32_MOD) : sub32 x 1 = x - 1 := by
  unfold sub32 UINT32_MOD at *; omega

theorem for_le32_run {σ : Type} (body : Nat → σ → Option σ) (f : Nat → σ → σ) (hi : Nat)
    (hhi : hi + 1 < UINT32_MOD) :
    ∀ (k fuel lo : Nat) (s : σ), lo + k = hi + 1 → k + 1 ≤ fuel →
      (∀ i s, lo ≤ i → i ≤ hi → body i s = some (f i s)) →
      for_le32 body hi fuel lo s = some ((List.range' lo k).foldl (fun s i => f i s) s) := by
  intro k
  induction k with
  | zero =>
    intro fuel lo s hk hf _
    obtain ⟨fuel, rfl⟩ : ∃ m, fuel = m + 1 := ⟨fuel - 1, by omega⟩
    have : ¬ lo ≤ hi := by omega
    simp [for_le32, this]
  | succ k ih =>
    intro fuel lo s hk hf hb
    obtain ⟨fuel, rfl⟩ : ∃ m, fuel = m + 1 := ⟨fuel - 1, by omega⟩
    have hle : lo ≤ hi := by omega
    have hstep : add32 lo 1 = lo + 1 := add32_succ lo (by omega)
    simp only [for_le32, hle, if_true, hb lo s (le_refl _) hle, Option.some_bind, hstep,
      List.range'_succ, List.foldl_cons]
    exact ih fuel (lo + 1) (f lo s) (by omega) (by omega)
      (fun i s h1 h2 => hb i s (by omega) h2)

theorem for_each_append {σ : Type} (body : Nat → σ → Option σ) (l1 l2 : List Nat) (s : σ) :
    for_each body (l1 ++ l2) s = (for_each body l1 s).bind (for_each body l2) := by
  induction l1 generalizing s with
  | nil => simp [for_each]
  | cons i rest ih =>
    simp only [List.cons_append, for_each]
    cases body i s with
    | none => simp
    | some s1 => simpa using ih s1

/-- Invariant rule for the bounded loop `for (i = 0; i < n; i++)`. -/
theorem for_lt_inv {σ : Type} (body : Nat → σ → Option σ) (P : Nat → σ → Prop) (n : Nat)
    (s : σ) (h0 : P 0 s)
    (hstep : ∀ i s, i < n → P i s → ∃ s1, body i s = some s1 ∧ P (i + 1) s1) :
    ∃ s1, for_lt body n s = some s1 ∧ P n s1 := by
  induction n with
  | zero => exact ⟨s, by simp [for_lt, for_each], h0⟩
  | succ n ih =>
    obtain ⟨s1, hs1, hP⟩ := ih (fun i s hi hp => hstep i s (by omega) hp)
    obtain ⟨s2, hs2, hP2⟩ := hstep n s1 (by omega) hP
    refine ⟨s2, ?_, hP2⟩
    unfold for_lt at hs1 ⊢
    rw [List.range_succ, for_each_append, hs1]
    simp [for_each, hs2]

/-! ## The census in closed form -/

theorem census_cell_eq (u : Universe) (r c i j n : Nat) (hn : n < UINT32_MOD) :
    census_cell u r c i j n = (n + census_term u r c i j) % UINT32_MOD := by
  unfold census_cell census_term add32
  by_cases h1 : i = r ∧ j = c
  · simp [h1, Nat.mod_eq_of_lt hn]
  · by_cases h2 : uv_get_cell u i j = true
    · simp [h1, h2]
    · simp [h1, h2, Nat.mod_eq_of_lt hn]

theorem census_cols_fold (u : Universe) (r c i : Nat) (l : List Nat) :
    ∀ n, n < UINT32_MOD →
      l.foldl (fun n j => census_cell u r c i j n) n
        = (n + (l.map fun j => census_term u r c i j).sum) % UINT32_MOD := by
  induction l with
  | nil => intro n hn; simp [Nat.mod_eq_of_lt hn]
  | cons j rest ih =>
    intro n hn
    have hM : 0 < UINT32_MOD := by unfold UINT32_MOD; omega
    simp only [List.foldl_cons, List.map_cons, List.sum_cons]
    rw [census_cell_eq u r c i j n hn, ih _ (Nat.mod_lt _ hM)]
    rw [Nat.add_mod, Nat.mod_mod, ← Nat.add_mod, Nat.add_assoc]

theorem census_block_fold (u : Universe) (r c : Nat) (lr lc : List Nat) :
    ∀ n, n < UINT32_MOD →
      lr.foldl (fun n i => lc.foldl (fun n j => census_cell u r c i j n) n) n
        = (n + (lr.map fun i => (lc.map fun j => census_term u r c i j).sum).sum)
          % UINT32_MOD := by
  induction lr with
  | nil => intro n hn; simp [Nat.mod_eq_of_lt hn]
  | cons i rest ih =>
    intro n hn
    have hM : 0 < UINT32_MOD := by unfold UINT32_MOD; omega
    simp only [List.foldl_cons, List.map_cons, List.sum_cons]
    rw [census_cols_fold u r c i lc n hn, ih _ (Nat.mod_lt _ hM)]
    rw [Nat.add_mod, Nat.mod_mod, ← Nat.add_mod, Nat.add_assoc]

theorem census_range_spec (x size : Nat) (hx : x < size) (hs : size < UINT32_MOD) :
    census_high x size + 1 < UINT32_MOD ∧
    census_low x + (census_range x size).length = census_high x size + 1 ∧
    (census_range x size).length ≤ 3 ∧
    List.range' (census_low x) (census_range x size).length = census_range x size := by
  have hsub : sub32 size 1 = size - 1 := sub32_one size (by omega) hs
  have hadd : add32 x 1 = x + 1 := add32_succ x (by omega)
  unfold census_high census_low census_range
  simp only [hsub, hadd]
  by_cases h0 : x = 0
  · by_cases h1 : x + 1 = size
    · have h2 : x = size - 1 := by omega
      subst h0
      simp [← h1, List.range']
      unfold UINT32_MOD; omega
    · have h2 : ¬ x = size - 1 := by omega
      subst h0
      simp [h1, h2, List.range']
      unfold UINT32_MOD; omega
  · have hx1 : sub32 x 1 = x - 1 := sub32_one x (by omega) (by omega)
    by_cases h1 : x + 1 = size
    · have h2 : x = size - 1 := by omega
      have h3 : x - 1 + 1 = x := by omega
      simp [h0, h1, hx1, ← h2, List.range', h3]
      omega
    · have h2 : ¬ x = size - 1 := by omega
      have h3 : x - 1 + 1 = x := by omega
      simp [h0, h1, h2, hx1, List.range', h3]
      omega

theorem wrap_chain (P1 P2 P3 P4 : Prop) [Decidable P1] [Decidable P2] [Decidable P3]
    [Decidable P4] (b1 b2 b3 b4 : Bool) (n : Nat) (hn : n < UINT32_MOD) :
    (let n1 := if P1 then (if b1 = true then add32 n 1 else n) else n
     let n2 := if P2 then (if b2 = true then add32 n1 1 else n1) else n1
     let n3 := if P3 then (if b3 = true then add32 n2 1 else n2) else n2
     let n4 := if P4 then (if b4 = true then add32 n3 1 else n3) else n3
     n4)
      = (n + ((if P1 ∧ b1 = true then 1 else 0) + (if P2 ∧ b2 = true then 1 else 0)
          + (if P3 ∧ b3 = true then 1 else 0) + (if P4 ∧ b4 = true then 1 else 0)))
        % UINT32_MOD := by
  unfold add32 UINT32_MOD at *
  by_cases h1 : P1 <;> by_cases h2 : P2 <;> by_cases h3 : P3 <;> by_cases h4 : P4 <;>
    cases b1 <;> cases b2 <;> cases b3 <;> cases b4 <;> simp [h1, h2, h3, h4] <;> omega

/-- The wrap-around additions as the code computes them. -/
theorem census_wrap_eq (u : Universe) (r c n : Nat) (hn : n < UINT32_MOD)
    (hr : 0 < u.rows) (hc : 0 < u.cols) (hwf : u.WF) :
    census_wrap u r c n
      = (n + (if u.toroidal = true then wrap_count u r c else 0)) % UINT32_MOD := by
  have hsr : sub32 u.rows 1 = u.rows - 1 := sub32_one _ hr hwf.1
  have hsc : sub32 u.cols 1 = u.cols - 1 := sub32_one _ hc hwf.2
  unfold census_wrap wrap_count
  simp only [hsr, hsc]
  cases ht : u.toroidal with
  | false => simp [Nat.mod_eq_of_lt hn]
  | true =>
    have key := wrap_chain (r = 0) (r = u.rows - 1) (c = 0 ∧ r ≠ 0 ∧ r ≠ u.rows - 1)
      (c = u.cols - 1 ∧ r ≠ 0 ∧ r ≠ u.rows - 1) (uv_get_cell u (u.rows - 1) c)
      (uv_get_cell u 0 c) (uv_get_cell u r (u.cols - 1)) (uv_get_cell u r 0) n hn
    simp only [and_assoc] at key
    simpa only [and_true, if_true] using key

/-- The census of an in-range cell: the loops end within four condition checks
each and the result is the block count plus the wrap-around additions. -/
theorem uv_census_closed (fuel : Nat) (hf : 4 ≤ fuel) (u : Universe) (hwf : u.WF)
    (r c : Nat) (hr : r < u.rows) (hc : c < u.cols) :
    uv_census fuel u r c
      = some ((block_count u r c + (if u.toroidal = true then wrap_count u r c else 0))
          % UINT32_MOD) := by
  obtain ⟨hr1, hr2, hr3, hr4⟩ := census_range_spec r u.rows hr hwf.1
  obtain ⟨hc1, hc2, hc3, hc4⟩ := census_range_spec c u.cols hc hwf.2
  have hM : 0 < UINT32_MOD := by unfold UINT32_MOD; omega
  have inner : ∀ i n, for_le32 (fun j n => some (census_cell u r c i j n))
      (census_high c u.cols) fuel (census_low c) n
        = some ((census_range c u.cols).foldl (fun n j => census_cell u r c i j n) n) := by
    intro i n
    have h := for_le32_run (fun j n => some (census_cell u r c i j n))
      (fun j n => census_cell u r c i j n) (census_high c u.cols) hc1
      (census_range c u.cols).length fuel (census_low c) n hc2 (by omega)
      (fun _ _ _ _ => rfl)
    rw [hc4] at h
    exact h
  have outer := for_le32_run
    (fun i n => for_le32 (fun j n => some (census_cell u r c i j n))
      (census_high c u.cols) fuel (census_low c) n)
    (fun i n => (census_range c u.cols).foldl (fun n j => census_cell u r c i j n) n)
    (census_high r u.rows) hr1 (census_range r u.rows).length fuel (census_low r) 0 hr2
    (by omega) (fun i n _ _ => inner i n)
  rw [hr4] at outer
  have hdef : uv_census fuel u r c
      = (for_le32
          (fun i n => for_le32 (fun j n => some (census_cell u r c i j n))
            (census_high c u.cols) fuel (census_low c) n)
          (census_high r u.rows) fuel (census_low r) 0).map (census_wrap u r c) := rfl
  rw [hdef, outer, Option.map_some']
  rw [census_block_fold u r c _ _ 0 hM, Nat.zero_add]
  rw [census_wrap_eq u r c _ (Nat.mod_lt _ hM) (by omega) (by omega) hwf]
  unfold block_count
  rw [Nat.add_mod, Nat.mod_mod, ← Nat.add_mod]

/-! ## The block count against the specification -/

theorem alive_at_cast (u : Universe) (i j : Nat) :
    alive_at u (i : Int) (j : Int) = uv_get_cell u i j := by
  unfold alive_at uv_get_cell
  by_cases h : i < u.rows ∧ j < u.cols
  · have h1 : 0 ≤ i ∧ i < u.rows ∧ 0 ≤ j ∧ j < u.cols := ⟨Nat.zero_le _, h.1, Nat.zero_le _, h.2⟩
    simp [h.1, h.2]
  · have h1 : ¬ (0 ≤ i ∧ i < u.rows ∧ 0 ≤ j ∧ j < u.cols) := fun hh => h ⟨hh.2.1, hh.2.2.2⟩
    rw [if_neg h1]
    have h2 : ¬ ((0 : Int) ≤ i ∧ (i : Int) < u.rows ∧ (0 : Int) ≤ j ∧ (j : Int) < u.cols) := by
      intro hh; apply h; omega
    simp only [h2, decide_False, Bool.false_and]

theorem alive_at_outside (u : Universe) (i j : Int)
    (h : i < 0 ∨ (u.rows : Int) ≤ i ∨ j < 0 ∨ (u.cols : Int) ≤ j) : alive_at u i j = false := by
  unfold alive_at
  have h2 : ¬ (0 ≤ i ∧ i < u.rows ∧ 0 ≤ j ∧ j < u.cols) := by omega
  simp only [h2, decide_False, Bool.false_and]

theorem offsets_sum (G : Int → Nat) (x size : Nat)
    (hG : ∀ i : Int, i < 0 ∨ (size : Int) ≤ i → G i = 0) :
    (offsets.map fun d => G (x + d)).sum = ((census_range x size).map fun (i : Nat) => G (i : Int)).sum := by
  unfold offsets census_range
  simp only [List.map_cons, List.map_nil, List.sum_cons, List.sum_nil, add_zero,
    Int.add_zero]
  have em1 : G ((x : Int) + -1) = if x = 0 then 0 else G ((x - 1 : Nat) : Int) := by
    by_cases h : x = 0
    · rw [if_pos h]; exact hG _ (by omega)
    · rw [if_neg h]; congr 1; omega
  have ep1 : G ((x : Int) + 1) = if x + 1 = size then 0 else G ((x + 1 : Nat) : Int) := by
    by_cases h : x + 1 = size
    · rw [if_pos h]; exact hG _ (by omega)
    · rw [if_neg h]; congr 1
  rw [em1, ep1]
  split_ifs <;> simp

theorem clipped_count_eq_block (u : Universe) (r c : Nat) :
    clipped_count u r c = block_count u r c := by
  have h1 : clipped_count u r c
      = (offsets.map fun dr => (offsets.map fun dc =>
          (fun i j : Int => if ¬ (i = r ∧ j = c) ∧ alive_at u i j = true then 1 else 0)
            (r + dr) (c + dc)).sum).sum := by
    unfold clipped_count offsets
    simp
  rw [h1]
  rw [offsets_sum (fun i => (offsets.map fun dc =>
      (fun i j : Int => if ¬ (i = r ∧ j = c) ∧ alive_at u i j = true then 1 else 0)
        i (c + dc)).sum) r u.rows]
  · unfold block_count
    congr 1
    apply List.map_congr_left
    intro i _
    rw [offsets_sum (fun j => (fun i j : Int =>
        if ¬ (i = r ∧ j = c) ∧ alive_at u i j = true then 1 else 0) i j) c u.cols]
    · congr 1
      apply List.map_congr_left
      intro j _
      simp only [census_term, alive_at_cast, Nat.cast_inj]
    · intro j hj
      have := alive_at_outside u i j (by omega)
      simp [this]
  · intro i hi
    have : ∀ j, alive_at u i j = false := fun j => alive_at_outside u i j (by omega)
    simp [this]

theorem census_term_le (u : Universe) (r c i j : Nat) : census_term u r c i j ≤ 1 := by
  unfold census_term; split_ifs <;> omega

theorem census_term_self (u : Universe) (r c : Nat) : census_term u r c r c = 0 := by
  unfold census_term; simp

theorem wrap_term_le (P : Prop) [Decidable P] (b : Bool) :
    (if P ∧ b = true then 1 else 0) ≤ 1 ∧ (¬ P → (if P ∧ b = true then 1 else 0) = 0) := by
  by_cases h : P <;> cases b <;> simp [h]

theorem wrap_term3_le (P Q R : Prop) [Decidable P] [Decidable Q] [Decidable R] (b : Bool) :
    (if P ∧ Q ∧ R ∧ b = true then 1 else 0) ≤ 1
      ∧ (¬ (P ∧ Q ∧ R) → (if P ∧ Q ∧ R ∧ b = true then 1 else 0) = 0) := by
  by_cases h1 : P <;> by_cases h2 : Q <;> by_cases h3 : R <;> cases b <;> simp [h1, h2, h3]

theorem block_plus_le (u : Universe) (r c : Nat) (hr : r < u.rows) (hc : c < u.cols)
    (w1 w2 w3 w4 : Nat)
    (h1 : w1 ≤ 1 ∧ (¬ r = 0 → w1 = 0)) (h2 : w2 ≤ 1 ∧ (¬ r = u.rows - 1 → w2 = 0))
    (h3 : w3 ≤ 1 ∧ (¬ (c = 0 ∧ r ≠ 0 ∧ r ≠ u.rows - 1) → w3 = 0))
    (h4 : w4 ≤ 1 ∧ (¬ (c = u.cols - 1 ∧ r ≠ 0 ∧ r ≠ u.rows - 1) → w4 = 0)) :
    block_count u r c + (w1 + w2 + w3 + w4) ≤ 8 := by
  have a1 := census_term_le u r c (r - 1) (c - 1)
  have a2 := census_term_le u r c (r - 1) c
  have a3 := census_term_le u r c (r - 1) (c + 1)
  have a4 := census_term_le u r c r (c - 1)
  have a5 := census_term_self u r c
  have a6 := census_term_le u r c r (c + 1)
  have a7 := census_term_le u r c (r + 1) (c - 1)
  have a8 := census_term_le u r c (r + 1) c
  have a9 := census_term_le u r c (r + 1) (c + 1)
  unfold block_count census_range
  split_ifs <;>
    simp only [List.map_cons, List.map_nil, List.sum_cons, List.sum_nil] <;> omega

/-- The block count and the wrap-around additions together never exceed 8. -/
theorem block_wrap_le (u : Universe) (r c : Nat) (hr : r < u.rows) (hc : c < u.cols) :
    block_count u r c + wrap_count u r c ≤ 8 :=
  block_plus_le u r c hr hc _ _ _ _
    (wrap_term_le (r = 0) (uv_get_cell u (u.rows - 1) c))
    (wrap_term_le (r = u.rows - 1) (uv_get_cell u 0 c))
    (wrap_term3_le (c = 0) (r ≠ 0) (r ≠ u.rows - 1) (uv_get_cell u r (u.cols - 1)))
    (wrap_term3_le (c = u.cols - 1) (r ≠ 0) (r ≠ u.rows - 1) (uv_get_cell u r 0))

theorem block_le (u : Universe) (r c : Nat) (hr : r < u.rows) (hc : c < u.cols) :
    block_count u r c ≤ 8 := by
  have := block_wrap_le u r c hr hc
  omega

/-! ## Claims about the census -/

/-- C3 (fails on the code): `uv_create` drops its `toroidal` argument.  The
universe created by `uv_create(3, 3, true)` has its flag cleared, and with only
`(2, 0)` alive the census of `(0, 0)` is `0`, not the wrap-around `1`. -/
theorem uv_create_drops_toroidal :
    (uv_create 3 3 true).toroidal = false
      ∧ uv_census 4 (uv_live_cell (uv_create 3 3 true) 2 0) 0 0 = some 0 := by
  constructor
  · rfl
  · decide

/-- C4: in a flat universe the census of an in-range cell `(r, c)` returns the
number of live cells among the in-grid positions `(r + dr, c + dc)`,
`dr, dc ∈ {-1, 0, 1}`, `(dr, dc) ≠ (0, 0)`. -/
theorem uv_census_flat (fuel : Nat) (hf : 4 ≤ fuel) (u : Universe) (hwf : u.WF)
    (hflat : u.toroidal = false) (r c : Nat) (hr : r < u.rows) (hc : c < u.cols) :
    uv_census fuel u r c = some (clipped_count u r c) := by
  rw [uv_census_closed fuel hf u hwf r c hr hc, hflat, clipped_count_eq_block]
  have hb := block_le u r c hr hc
  simp only [Bool.false_eq_true, if_false, Nat.add_zero]
  rw [Nat.mod_eq_of_lt]
  unfold UINT32_MOD; omega

/-- C4, the 3x3 example: with only the centre alive each of the 8 other cells
has census exactly 1. -/
theorem uv_census_flat_witness :
    uv_census 4 centre3 0 0 = some 1 ∧ uv_census 4 centre3 0 1 = some 1
      ∧ uv_census 4 centre3 0 2 = some 1 ∧ uv_census 4 centre3 1 0 = some 1
      ∧ uv_census 4 centre3 1 2 = some 1 ∧ uv_census 4 centre3 2 0 = some 1
      ∧ uv_census 4 centre3 2 1 = some 1 ∧ uv_census 4 centre3 2 2 = some 1 :=
  ⟨(uv_census_flat 4 (by decide) centre3 (by decide) rfl 0 0 (by decide) (by decide)).trans
      (by decide),
   (uv_census_flat 4 (by decide) centre3 (by decide) rfl 0 1 (by decide) (by decide)).trans
      (by decide),
   (uv_census_flat 4 (by decide) centre3 (by decide) rfl 0 2 (by decide) (by decide)).trans
      (by decide),
   (uv_census_flat 4 (by decide) centre3 (by decide) rfl 1 0 (by decide) (by decide)).trans
      (by decide),
   (uv_census_flat 4 (by decide) centre3 (by decide) rfl 1 2 (by decide) (by decide)).trans
      (by decide),
   (uv_census_flat 4 (by decide) centre3 (by decide) rfl 2 0 (by decide) (by decide)).trans
      (by decide),
   (uv_census_flat 4 (by decide) centre3 (by decide) rfl 2 1 (by decide) (by decide)).trans
      (by decide),
   (uv_census_flat 4 (by decide) centre3 (by decide) rfl 2 2 (by decide) (by decide)).trans
      (by decide)⟩

/-- C5: in a universe whose toroidal flag is set the census of an in-range
cell returns the flat clipped count plus the four wrap-around additions. -/
theorem uv_census_toroidal (fuel : Nat) (hf : 4 ≤ fuel) (u : Universe) (hwf : u.WF)
    (htor : u.toroidal = true) (r c : Nat) (hr : r < u.rows) (hc : c < u.cols) :
    uv_census fuel u r c = some (clipped_count u r c + wrap_count u r c) := by
  rw [uv_census_closed fuel hf u hwf r c hr hc, htor, clipped_count_eq_block]
  have hb := block_wrap_le u r c hr hc
  simp only [if_true]
  rw [Nat.mod_eq_of_lt]
  unfold UINT32_MOD; omega

/-- C5 at a 3x3 universe with the flag set and only `(2, 0)` alive: the census
of `(0, 0)` is the row wrap alone. -/
theorem uv_census_toroidal_witness :
    clipped_count torus3 0 0 = 0 ∧ wrap_count torus3 0 0 = 1
      ∧ uv_census 4 torus3 0 0 = some 1 :=
  ⟨by decide, by decide,
   (uv_census_toroidal 4 (by decide) torus3 (by decide) rfl 0 0 (by decide) (by decide)).trans
      (by decide)⟩

/-- The census of an in-range cell returns, and returns at most 8. -/
theorem uv_census_some_le (fuel : Nat) (hf : 4 ≤ fuel) (u : Universe) (hwf : u.WF)
    (r c : Nat) (hr : r < u.rows) (hc : c < u.cols) :
    ∃ n, uv_census fuel u r c = some n ∧ n ≤ 8 := by
  refine ⟨_, uv_census_closed fuel hf u hwf r c hr hc, ?_⟩
  have hb := block_wrap_le u r c hr hc
  have hM : (8 : Nat) < UINT32_MOD := by unfold UINT32_MOD; omega
  cases ht : u.toroidal with
  | false =>
    simp only [Bool.false_eq_true, if_false, Nat.add_zero]
    exact le_trans (Nat.mod_le _ _) (by omega)
  | true =>
    simp only [if_true]
    exact le_trans (Nat.mod_le _ _) hb

/-- C6: for every universe, flat or toroidal, the census of an in-range cell
returns a count between 0 and 8. -/
theorem uv_census_range (fuel : Nat) (hf : 4 ≤ fuel) (u : Universe) (hwf : u.WF)
    (r c : Nat) (hr : r < u.rows) (hc : c < u.cols) :
    ∃ n, uv_census fuel u r c = some n ∧ 0 ≤ n ∧ n ≤ 8 := by
  obtain ⟨n, hn, hle⟩ := uv_census_some_le fuel hf u hwf r c hr hc
  exact ⟨n, hn, Nat.zero_le n, hle⟩

/-- C6 at the full 3x3 torus centre: all 8 neighbours alive, census 8. -/
theorem uv_census_range_witness :
    ∃ n, uv_census 4 (universe_of 3 3 true
        [(0, 0), (0, 1), (0, 2), (1, 0), (1, 1), (1, 2), (2, 0), (2, 1), (2, 2)]) 1 1 = some n
      ∧ 0 ≤ n ∧ n ≤ 8 :=
  uv_census_range 4 (by decide) _ (by decide) 1 1 (by decide) (by decide)

/-! ## The evolution driver -/

theorem read_write_same (h : Heap) (p : Ref) (u : Universe) : (h.write p u).read p = u := by
  cases p <;> rfl

theorem read_write_other (h : Heap) (p q : Ref) (u : Universe) (hne : q ≠ p) :
    (h.write p u).read q = h.read q := by
  cases p <;> cases q <;> first | rfl | exact absurd rfl hne

theorem get_live_cell (u : Universe) (r c i j : Nat) (hr : r < u.rows) (hc : c < u.cols) :
    uv_get_cell (uv_live_cell u r c) i j = if i = r ∧ j = c then true else uv_get_cell u i j := by
  unfold uv_live_cell uv_get_cell
  have h0 : 0 ≤ r ∧ r < u.rows ∧ 0 ≤ c ∧ c < u.cols := ⟨Nat.zero_le _, hr, Nat.zero_le _, hc⟩
  rw [if_pos h0]
  by_cases h1 : i = r ∧ j = c
  · obtain ⟨rfl, rfl⟩ := h1
    simp [hr, hc]
  · simp only [h1, if_false]

theorem get_dead_cell (u : Universe) (r c i j : Nat) (hr : r < u.rows) (hc : c < u.cols) :
    uv_get_cell (uv_dead_cell u r c) i j = if i = r ∧ j = c then false else uv_get_cell u i j := by
  unfold uv_dead_cell uv_get_cell
  have h0 : 0 ≤ r ∧ r < u.rows ∧ 0 ≤ c ∧ c < u.cols := ⟨Nat.zero_le _, hr, Nat.zero_le _, hc⟩
  rw [if_pos h0]
  by_cases h1 : i = r ∧ j = c
  · obtain ⟨rfl, rfl⟩ := h1
    simp [hr, hc]
  · simp only [h1, if_false]

theorem live_cell_dims (u : Universe) (r c : Nat) :
    (uv_live_cell u r c).rows = u.rows ∧ (uv_live_cell u r c).cols = u.cols
      ∧ (uv_live_cell u r c).toroidal = u.toroidal := by
  unfold uv_live_cell; split_ifs <;> simp

theorem dead_cell_dims (u : Universe) (r c : Nat) :
    (uv_dead_cell u r c).rows = u.rows ∧ (uv_dead_cell u r c).cols = u.cols
      ∧ (uv_dead_cell u r c).toroidal = u.toroidal := by
  unfold uv_dead_cell; split_ifs <;> simp

/-- One cell of the pass. -/
theorem play_cell_step (fuel : Nat) (hf : 4 ≤ fuel) (a : Universe) (hwf : a.WF) (tB : Bool)
    (uA uB : Ref) (hne : uA ≠ uB) (i j : Nat) (hi : i < a.rows) (hj : j < a.cols) (h : Heap)
    (hd : pass_done fuel a tB uA uB i j h) :
    ∃ h1, play_cell fuel uA uB i j h = some h1 ∧ pass_done fuel a tB uA uB i (j + 1) h1 := by
  obtain ⟨hA, hrows, hcols, htor, hcells⟩ := hd
  obtain ⟨n, hn, -⟩ := uv_census_some_le fuel hf a hwf i j hi hj
  unfold play_cell
  rw [hA, hn, Option.some_bind]
  have hiB : i < (h.read uB).rows := by omega
  have hjB : j < (h.read uB).cols := by omega
  by_cases hrule : n = 3 ∨ (n = 2 ∧ uv_get_cell a i j = true)
  · rw [if_pos hrule]
    refine ⟨_, rfl, ?_, ?_, ?_, ?_, ?_⟩
    · rw [read_write_other _ _ _ _ hne]; exact hA
    · rw [read_write_same, (live_cell_dims _ _ _).1]; exact hrows
    · rw [read_write_same, (live_cell_dims _ _ _).2.1]; exact hcols
    · rw [read_write_same, (live_cell_dims _ _ _).2.2]; exact htor
    · intro i1 j1 hi1 hj1 hlt
      rw [read_write_same, get_live_cell _ _ _ _ _ hiB hjB]
      by_cases hij : i1 = i ∧ j1 = j
      · obtain ⟨rfl, rfl⟩ := hij
        simp only [and_self, if_true, true_iff]
        unfold rule_alive
        rw [hn]
        simpa using hrule
      · rw [if_neg hij]
        exact hcells i1 j1 hi1 hj1 (by omega)
  · rw [if_neg hrule]
    refine ⟨_, rfl, ?_, ?_, ?_, ?_, ?_⟩
    · rw [read_write_other _ _ _ _ hne]; exact hA
    · rw [read_write_same, (dead_cell_dims _ _ _).1]; exact hrows
    · rw [read_write_same, (dead_cell_dims _ _ _).2.1]; exact hcols
    · rw [read_write_same, (dead_cell_dims _ _ _).2.2]; exact htor
    · intro i1 j1 hi1 hj1 hlt
      rw [read_write_same, get_dead_cell _ _ _ _ _ hiB hjB]
      by_cases hij : i1 = i ∧ j1 = j
      · obtain ⟨rfl, rfl⟩ := hij
        simp only [and_self, if_true, Bool.false_eq_true, false_iff]
        unfold rule_alive
        rw [hn]
        simpa using hrule
      · rw [if_neg hij]
        exact hcells i1 j1 hi1 hj1 (by omega)

/-- One row of the pass. -/
theorem play_row_step (fuel : Nat) (hf : 4 ≤ fuel) (a : Universe) (hwf : a.WF) (tB : Bool)
    (uA uB : Ref) (hne : uA ≠ uB) (i : Nat) (hi : i < a.rows) (h : Heap)
    (hd : pass_done fuel a tB uA uB i 0 h) :
    ∃ h1, for_lt (fun j h => play_cell fuel uA uB i j h) (uv_cols (h.read uA)) h = some h1
      ∧ pass_done fuel a tB uA uB (i + 1) 0 h1 := by
  have hA : h.read uA = a := hd.1
  rw [hA]
  obtain ⟨h1, hrun, hP⟩ := for_lt_inv (fun j h => play_cell fuel uA uB i j h)
    (fun j h => pass_done fuel a tB uA uB i j h) (uv_cols a) h hd
    (fun j s hj hs => play_cell_step fuel hf a hwf tB uA uB hne i j hi hj s hs)
  refine ⟨h1, hrun, hP.1, hP.2.1, hP.2.2.1, hP.2.2.2.1, ?_⟩
  intro i1 j1 hi1 hj1 hlt
  exact hP.2.2.2.2 i1 j1 hi1 hj1 (by unfold uv_cols; omega)

/-- The whole pass, from any starting heap whose two buffers are distinct
objects of the same dimensions. -/
theorem play_generation_pass (fuel : Nat) (hf : 4 ≤ fuel) (uA uB : Ref) (hne : uA ≠ uB)
    (h : Heap) (hwf : (h.read uA).WF) (hrows : (h.read uB).rows = (h.read uA).rows)
    (hcols : (h.read uB).cols = (h.read uA).cols) :
    ∃ h1, play_generation fuel uA uB h = some h1
      ∧ pass_done fuel (h.read uA) (h.read uB).toroidal uA uB (h.read uA).rows 0 h1 := by
  unfold play_generation
  exact for_lt_inv
    (fun i h => for_lt (fun j h => play_cell fuel uA uB i j h) (uv_cols (h.read uA)) h)
    (fun i h1 => pass_done fuel (h.read uA) (h.read uB).toroidal uA uB i 0 h1)
    (uv_rows (h.read uA)) h
    ⟨rfl, hrows, hcols, rfl, fun i1 j1 _ _ hlt => by omega⟩
    (fun i s hi hs => play_row_step fuel hf (h.read uA) hwf _ uA uB hne i hi s hs)

/-- C2: one generation pass from the current buffer `uA` into a distinct next
buffer `uB` of the same dimensions ends, leaves `uA` as it was, and makes every
in-range cell `(i, j)` of `uB` alive exactly when the census of `(i, j)` in `uA`
is 3, or is 2 and the cell is alive in `uA`. -/
theorem play_generation_rule (fuel : Nat) (hf : 4 ≤ fuel) (uA uB : Ref) (hne : uA ≠ uB)
    (h : Heap) (hwf : (h.read uA).WF) (hrows : (h.read uB).rows = (h.read uA).rows)
    (hcols : (h.read uB).cols = (h.read uA).cols) :
    ∃ h1, play_generation fuel uA uB h = some h1
      ∧ h1.read uA = h.read uA
      ∧ ∀ i j, i < (h.read uA).rows → j < (h.read uA).cols →
          (uv_get_cell (h1.read uB) i j = true ↔
            (uv_census fuel (h.read uA) i j = some 3
              ∨ (uv_census fuel (h.read uA) i j = some 2
                  ∧ uv_get_cell (h.read uA) i j = true))) := by
  obtain ⟨h1, hrun, hA, -, -, -, hcells⟩ :=
    play_generation_pass fuel hf uA uB hne h hwf hrows hcols
  exact ⟨h1, hrun, hA, fun i j hi hj => hcells i j hi hj (Or.inl hi)⟩

/-- An example of C2: one pass over the blinker. -/
theorem play_generation_rule_witness :
    ∃ h1, play_generation 4 Ref.A Ref.B blinker_heap = some h1
      ∧ h1.read Ref.A = blinker_heap.read Ref.A
      ∧ ∀ i j, i < (blinker_heap.read Ref.A).rows → j < (blinker_heap.read Ref.A).cols →
          (uv_get_cell (h1.read Ref.B) i j = true ↔
            (uv_census 4 (blinker_heap.read Ref.A) i j = some 3
              ∨ (uv_census 4 (blinker_heap.read Ref.A) i j = some 2
                  ∧ uv_get_cell (blinker_heap.read Ref.A) i j = true))) :=
  play_generation_rule 4 (by decide) Ref.A Ref.B (by decide) blinker_heap (by decide) rfl rfl

/-! ## `uv_populate` -/

theorem populate_loop_fail_cells (num_rows num_cols : Nat) (ps : List (Nat × Nat)) :
    ∀ (u : Universe) (r0 c0 : Nat), u.rows = num_rows → u.cols = num_cols →
      (uv_populate_loop u num_rows num_cols r0 c0 ps).1 = false →
      ∀ i j, uv_get_cell (uv_populate_loop u num_rows num_cols r0 c0 ps).2 i j
        = (uv_get_cell u i j
            || decide ((i, j) ∈ ps.takeWhile fun p => decide (p.1 < num_rows ∧ p.2 < num_cols))) := by
  induction ps with
  | nil =>
    intro u r0 c0 _ _ hfail i j
    unfold uv_populate_loop at hfail ⊢
    by_cases hbad : r0 < 0 ∨ r0 ≥ num_rows ∨ c0 < 0 ∨ c0 ≥ num_cols
    · rw [if_pos hbad]
      simp
    · rw [if_neg hbad] at hfail
      simp at hfail
  | cons p rest ih =>
    intro u r0 c0 hrows hcols hfail i j
    obtain ⟨r, c⟩ := p
    unfold uv_populate_loop at hfail ⊢
    by_cases hbad : r < 0 ∨ r ≥ num_rows ∨ c < 0 ∨ c ≥ num_cols
    · have hno : ¬ (r < num_rows ∧ c < num_cols) := by omega
      rw [if_pos hbad]
      simp [List.takeWhile, hno]
    · rw [if_neg hbad] at hfail ⊢
      have hin : r < num_rows ∧ c < num_cols := by omega
      have hd := live_cell_dims u r c
      rw [ih (uv_live_cell u r c) r c (hd.1.trans hrows) (hd.2.1.trans hcols) hfail i j]
      rw [get_live_cell u r c i j (by omega) (by omega)]
      simp only [List.takeWhile, hin, and_self, decide_True, List.mem_cons, Prod.mk.injEq]
      by_cases hij : i = r ∧ j = c
      · simp [hij]
      · simp [hij]

/-- C8: when `uv_populate` fails, the live cells afterwards are exactly the
cells live before the call together with the pairs that precede the first
out-of-range pair of the sequence, `infile.takeWhile (in_range u)`; no later
pair is applied. -/
theorem uv_populate_failure_prefix (u : Universe) (r0 c0 : Nat) (infile : List (Nat × Nat))
    (hfail : (uv_populate u r0 c0 infile).1 = false) (i j : Nat) :
    uv_get_cell (uv_populate u r0 c0 infile).2 i j
      = (uv_get_cell u i j || decide ((i, j) ∈ infile.takeWhile (in_range u))) :=
  populate_loop_fail_cells u.rows u.cols infile u r0 c0 rfl rfl hfail i j

/-- C8 on a 3x3 universe: `(7, 7)` is the first out-of-range pair, so only
`(0, 1)` and `(1, 1)` are applied and `(2, 2)` is not. -/
theorem uv_populate_failure_prefix_witness :
    (uv_populate (uv_create 3 3 false) 0 0 [(0, 1), (1, 1), (7, 7), (2, 2)]).1 = false
      ∧ uv_get_cell (uv_populate (uv_create 3 3 false) 0 0 [(0, 1), (1, 1), (7, 7), (2, 2)]).2 2 2
        = (uv_get_cell (uv_create 3 3 false) 2 2
            || decide ((2, 2) ∈ [(0, 1), (1, 1), (7, 7), (2, 2)].takeWhile
                (in_range (uv_create 3 3 false))))
      ∧ uv_get_cell (uv_populate (uv_create 3 3 false) 0 0 [(0, 1), (1, 1), (7, 7), (2, 2)]).2 2 2
        = false :=
  ⟨by decide,
   uv_populate_failure_prefix (uv_create 3 3 false) 0 0 [(0, 1), (1, 1), (7, 7), (2, 2)]
     (by decide) 2 2,
   by decide⟩

theorem populate_loop_flag (num_rows num_cols : Nat) (ps : List (Nat × Nat)) :
    ∀ (u : Universe) (r0 c0 : Nat),
      (uv_populate_loop u num_rows num_cols r0 c0 ps).1
        = ((decide (r0 < num_rows ∧ c0 < num_cols) || !ps.isEmpty)
            && ps.all (fun p => decide (p.1 < num_rows ∧ p.2 < num_cols))) := by
  induction ps with
  | nil =>
    intro u r0 c0
    unfold uv_populate_loop
    by_cases hbad : r0 < 0 ∨ r0 ≥ num_rows ∨ c0 < 0 ∨ c0 ≥ num_cols
    · have hno : ¬ (r0 < num_rows ∧ c0 < num_cols) := by omega
      rw [if_pos hbad]
      simp [hno]
    · have hin : r0 < num_rows ∧ c0 < num_cols := by omega
      rw [if_neg hbad]
      simp [hin]
  | cons p rest ih =>
    intro u r0 c0
    obtain ⟨r, c⟩ := p
    unfold uv_populate_loop
    by_cases hbad : r < 0 ∨ r ≥ num_rows ∨ c < 0 ∨ c ≥ num_cols
    · have hno : ¬ (r < num_rows ∧ c < num_cols) := by omega
      rw [if_pos hbad]
      simp [hno]
    · have hin : r < num_rows ∧ c < num_cols := by omega
      rw [if_neg hbad, ih]
      cases rest <;> simp [hin]

/-- The flag returned by `uv_populate` on a non-empty sequence: true exactly
when every pair is in range. -/
theorem uv_populate_flag_nonempty (u : Universe) (r0 c0 : Nat) (p : Nat × Nat)
    (ps : List (Nat × Nat)) :
    (uv_populate u r0 c0 (p :: ps)).1 = true ↔ ∀ q ∈ p :: ps, q.1 < u.rows ∧ q.2 < u.cols := by
  unfold uv_populate uv_rows uv_cols
  rw [populate_loop_flag]
  simp

/-- The flag returned by `uv_populate` on the empty sequence: whether the
values already in the locals `r` and `c` are in range. -/
theorem uv_populate_flag_empty (u : Universe) (r0 c0 : Nat) :
    (uv_populate u r0 c0 []).1 = decide (r0 < u.rows ∧ c0 < u.cols) := by
  unfold uv_populate uv_rows uv_cols
  rw [populate_loop_flag]
  simp

/-- C7 (fails on the code): on the empty sequence `uv_populate` tests the
locals `r` and `c` that no `fscanf` has assigned.  In a universe with no rows
every value is out of range, so it returns false although no supplied pair is
out of range; in a 3x3 universe the flag follows the stale values. -/
theorem uv_populate_empty_sequence_fails :
    (∀ r0 c0 : Nat, (uv_populate (uv_create 0 0 false) r0 c0 []).1 = false)
      ∧ (uv_populate (uv_create 3 3 false) 7 0 []).1 = false
      ∧ (uv_populate (uv_create 3 3 false) 0 0 []).1 = true := by
  refine ⟨?_, by decide, by decide⟩
  intro r0 c0
  rw [uv_populate_flag_empty]
  simp [uv_create]

/-- C9 (fails on the code): on the empty sequence the write of the loop runs
on the stale locals.  When they hold `0` and `0`, populating a fresh 3x3
universe with no pairs succeeds and the rendering shows the cell `(0, 0)`
alive. -/
theorem uv_populate_empty_sequence_renders_stale_cell :
    (uv_populate (uv_create 3 3 false) 0 0 []).1 = true
      ∧ uv_print (uv_populate (uv_create 3 3 false) 0 0 []).2 [] = "o..\n...\n...\n".toList := by
  constructor <;> decide

theorem populate_loop_cells (num_rows num_cols : Nat) (ps : List (Nat × Nat)) :
    ∀ (u : Universe) (r0 c0 : Nat), u.rows = num_rows → u.cols = num_cols →
      (uv_populate_loop u num_rows num_cols r0 c0 ps).1 = true →
      ∀ i j, uv_get_cell (uv_populate_loop u num_rows num_cols r0 c0 ps).2 i j
        = (uv_get_cell u i j || (ps.isEmpty && decide (i = r0 ∧ j = c0))
            || decide ((i, j) ∈ ps)) := by
  induction ps with
  | nil =>
    intro u r0 c0 hrows hcols hflag i j
    unfold uv_populate_loop at hflag ⊢
    by_cases hbad : r0 < 0 ∨ r0 ≥ num_rows ∨ c0 < 0 ∨ c0 ≥ num_cols
    · rw [if_pos hbad] at hflag
      simp at hflag
    · rw [if_neg hbad]
      show uv_get_cell (uv_live_cell u r0 c0) i j = _
      rw [get_live_cell u r0 c0 i j (by omega) (by omega)]
      by_cases hij : i = r0 ∧ j = c0 <;> simp [hij]
  | cons p rest ih =>
    intro u r0 c0 hrows hcols hflag i j
    obtain ⟨r, c⟩ := p
    unfold uv_populate_loop at hflag ⊢
    by_cases hbad : r < 0 ∨ r ≥ num_rows ∨ c < 0 ∨ c ≥ num_cols
    · rw [if_pos hbad] at hflag
      simp at hflag
    · rw [if_neg hbad] at hflag ⊢
      have hd := live_cell_dims u r c
      rw [ih (uv_live_cell u r c) r c (hd.1.trans hrows) (hd.2.1.trans hcols) hflag i j]
      rw [get_live_cell u r c i j (by omega) (by omega)]
      by_cases hij : i = r ∧ j = c
      · simp [hij]
      · simp [hij]

/-- After a successful `uv_populate` on a non-empty sequence the live cells
are those live before together with the supplied pairs. -/
theorem uv_populate_cells_nonempty (u : Universe) (r0 c0 : Nat) (p : Nat × Nat)
    (ps : List (Nat × Nat)) (hflag : (uv_populate u r0 c0 (p :: ps)).1 = true) (i j : Nat) :
    uv_get_cell (uv_populate u r0 c0 (p :: ps)).2 i j
      = (uv_get_cell u i j || decide ((i, j) ∈ p :: ps)) := by
  unfold uv_populate uv_rows uv_cols at hflag ⊢
  rw [populate_loop_cells u.rows u.cols (p :: ps) u r0 c0 rfl rfl hflag i j]
  simp

/-- After a successful `uv_populate` on the empty sequence the cell named by
the stale locals has become alive. -/
theorem uv_populate_cells_empty (u : Universe) (r0 c0 : Nat)
    (hflag : (uv_populate u r0 c0 []).1 = true) (i j : Nat) :
    uv_get_cell (uv_populate u r0 c0 []).2 i j
      = (uv_get_cell u i j || decide (i = r0 ∧ j = c0)) := by
  unfold uv_populate uv_rows uv_cols at hflag ⊢
  rw [populate_loop_cells u.rows u.cols [] u r0 c0 rfl rfl hflag i j]
  simp

/-! ## `uv_print` -/

theorem foldl_append_char (f : Nat → Char) (n : Nat) (out : List Char) :
    (List.range n).foldl (fun out c => out ++ [f c]) out = out ++ (List.range n).map f := by
  induction n with
  | zero => simp
  | succ n ih => simp [List.range_succ, List.foldl_append, ih]

theorem uv_print_row_eq (u : Universe) (r : Nat) (out : List Char) :
    uv_print_row u r out = out ++ (List.range u.cols).map (cell_char u r) := by
  unfold uv_print_row
  rw [← foldl_append_char (cell_char u r) u.cols out]
  congr 1
  funext out c
  unfold cell_char
  split_ifs <;> rfl

/-- The text of the first `n` lines. -/
theorem uv_print_lines (u : Universe) (n : Nat) (out : List Char) :
    (List.range n).foldl (fun out r => uv_print_row u r out ++ ['\n']) out
      = out ++ ((List.range n).map fun r => (List.range u.cols).map (cell_char u r) ++ ['\n']).flatten := by
  induction n with
  | zero => simp
  | succ n ih =>
    rw [List.range_succ, List.foldl_append, ih]
    simp [uv_print_row_eq]

theorem lines_length (u : Universe) (n : Nat) :
    ((List.range n).map fun r => (List.range u.cols).map (cell_char u r) ++ ['\n']).flatten.length
      = n * (u.cols + 1) := by
  induction n with
  | zero => simp
  | succ n ih =>
    rw [List.range_succ, List.map_append, List.flatten_append, List.length_append, ih]
    simp [Nat.succ_mul]

theorem lines_get (u : Universe) (n : Nat) :
    ∀ r k, r < n → k < u.cols + 1 →
      ((List.range n).map fun r => (List.range u.cols).map (cell_char u r) ++ ['\n']).flatten[
          r * (u.cols + 1) + k]?
        = ((List.range u.cols).map (cell_char u r) ++ ['\n'])[k]? := by
  induction n with
  | zero => intro r k hr; omega
  | succ n ih =>
    intro r k hr hk
    rw [List.range_succ, List.map_append, List.flatten_append]
    by_cases hlt : r < n
    · have hidx : r * (u.cols + 1) + k < n * (u.cols + 1) := by
        have : (r + 1) * (u.cols + 1) ≤ n * (u.cols + 1) := Nat.mul_le_mul_right _ hlt
        rw [Nat.succ_mul] at this
        omega
      rw [List.getElem?_append_left (by rw [lines_length]; exact hidx)]
      exact ih r k hlt hk
    · have hrn : r = n := by omega
      subst hrn
      rw [List.getElem?_append_right (by rw [lines_length]; omega), lines_length]
      simp

/-- C10: `uv_print` writes `rows` lines of `cols` characters followed by a
newline each: the output has `rows * (cols + 1)` characters, the character of
line `r` at position `c` is `'o'` for a live cell and `'.'` for a dead one, and
position `cols` of every line holds the newline. -/
theorem uv_print_format (u : Universe) :
    (uv_print u []).length = u.rows * (u.cols + 1)
      ∧ (∀ r c, r < u.rows → c < u.cols →
          (uv_print u [])[r * (u.cols + 1) + c]?
            = some (if uv_get_cell u r c = true then 'o' else '.'))
      ∧ (∀ r, r < u.rows → (uv_print u [])[r * (u.cols + 1) + u.cols]? = some '\n') := by
  unfold uv_print
  rw [uv_print_lines u u.rows []]
  simp only [List.nil_append]
  refine ⟨lines_length u u.rows, ?_, ?_⟩
  · intro r c hr hc
    rw [lines_get u u.rows r c hr (by omega)]
    rw [List.getElem?_append_left (by simpa using hc)]
    simp [hc, cell_char]
  · intro r hr
    rw [lines_get u u.rows r u.cols hr (by omega)]
    rw [List.getElem?_append_right (by simp)]
    simp

/-- C10 at the 3x3 blinker: 12 characters, line 1 position 1 is `'o'`, line 0
position 0 is `'.'`, and line 2 ends with the newline. -/
theorem uv_print_format_witness :
    (uv_print blinker3 []).length = 12
      ∧ (uv_print blinker3 [])[1 * (3 + 1) + 1]? = some 'o'
      ∧ (uv_print blinker3 [])[0 * (3 + 1) + 0]? = some '.'
      ∧ (uv_print blinker3 [])[2 * (3 + 1) + 3]? = some '\n' :=
  ⟨(uv_print_format blinker3).1,
   (uv_print_format blinker3).2.1 1 1 (by decide) (by decide),
   (uv_print_format blinker3).2.1 0 0 (by decide) (by decide),
   (uv_print_format blinker3).2.2 2 (by decide)⟩

/-! ## `play_game` against the iterated rule -/

theorem same_cells_refl (u : Universe) : same_cells u u := ⟨rfl, rfl, rfl, fun _ _ => rfl⟩

theorem same_cells_trans {u v w : Universe} (h1 : same_cells u v) (h2 : same_cells v w) :
    same_cells u w :=
  ⟨h1.1.trans h2.1, h1.2.1.trans h2.2.1, h1.2.2.1.trans h2.2.2.1,
    fun i j => (h1.2.2.2 i j).trans (h2.2.2.2 i j)⟩

theorem alive_at_congr {u v : Universe} (h : same_cells u v) (i j : Int) :
    alive_at u i j = alive_at v i j := by
  by_cases hneg : i < 0 ∨ j < 0
  · rw [alive_at_outside u i j (by omega), alive_at_outside v i j (by omega)]
  · obtain ⟨a, rfl⟩ : ∃ a : Nat, i = a := ⟨i.toNat, by omega⟩
    obtain ⟨b, rfl⟩ : ∃ b : Nat, j = b := ⟨j.toNat, by omega⟩
    rw [alive_at_cast, alive_at_cast, h.2.2.2 a b]

theorem neighbor_count_congr {u v : Universe} (h : same_cells u v) (r c : Nat) :
    neighbor_count u r c = neighbor_count v r c := by
  unfold neighbor_count clipped_count wrap_count
  simp only [alive_at_congr h, h.1, h.2.1, h.2.2.1, h.2.2.2]

theorem get_next_generation (u : Universe) (i j : Nat) :
    uv_get_cell (next_generation u) i j = true ↔
      (i < u.rows ∧ j < u.cols) ∧
        (neighbor_count u i j = 3 ∨ (neighbor_count u i j = 2 ∧ uv_get_cell u i j = true)) := by
  by_cases hin : i < u.rows ∧ j < u.cols
  · have h0 : 0 ≤ i ∧ i < u.rows ∧ 0 ≤ j ∧ j < u.cols := ⟨Nat.zero_le _, hin.1, Nat.zero_le _, hin.2⟩
    have hget : uv_get_cell (next_generation u) i j
        = ((uv_get_cell u i j && (neighbor_count u i j == 2 || neighbor_count u i j == 3))
            || (!uv_get_cell u i j && neighbor_count u i j == 3)) := by
      show (if 0 ≤ i ∧ i < u.rows ∧ 0 ≤ j ∧ j < u.cols then _ else false) = _
      rw [if_pos h0]
      rfl
    rw [hget]
    cases uv_get_cell u i j <;> simp [hin]
    omega
  · have h0 : ¬ (0 ≤ i ∧ i < u.rows ∧ 0 ≤ j ∧ j < u.cols) := fun hh => hin ⟨hh.2.1, hh.2.2.2⟩
    have hget : uv_get_cell (next_generation u) i j = false := by
      show (if 0 ≤ i ∧ i < u.rows ∧ 0 ≤ j ∧ j < u.cols then _ else false) = _
      rw [if_neg h0]
    rw [hget]
    simp [hin]

theorem next_generation_congr {u v : Universe} (h : same_cells u v) :
    same_cells (next_generation u) (next_generation v) := by
  refine ⟨h.1, h.2.1, h.2.2.1, fun i j => ?_⟩
  have hu := get_next_generation u i j
  have hv := get_next_generation v i j
  rw [neighbor_count_congr h, h.1, h.2.1, h.2.2.2] at hu
  rw [Bool.eq_iff_iff, hu, hv]

theorem generations_congr (n : Nat) :
    ∀ {u v : Universe}, same_cells u v → same_cells (generations n u) (generations n v) := by
  induction n with
  | zero => intro u v h; exact h
  | succ n ih => intro u v h; exact ih (next_generation_congr h)

theorem generations_succ (n : Nat) :
    ∀ u : Universe, generations (n + 1) u = next_generation (generations n u) := by
  induction n with
  | zero => intro u; rfl
  | succ n ih => intro u; exact ih (next_generation u)

/-- On an in-range cell the code's census returns the specification's count. -/
theorem uv_census_eq_neighbor_count (fuel : Nat) (hf : 4 ≤ fuel) (u : Universe) (hwf : u.WF)
    (r c : Nat) (hr : r < u.rows) (hc : c < u.cols) :
    uv_census fuel u r c = some (neighbor_count u r c) := by
  rw [uv_census_closed fuel hf u hwf r c hr hc]
  unfold neighbor_count
  rw [clipped_count_eq_block]
  have hb := block_wrap_le u r c hr hc
  rw [Nat.mod_eq_of_lt]
  unfold UINT32_MOD
  split_ifs <;> omega

/-- A finished pass leaves the next generation in the next buffer. -/
theorem pass_done_next (fuel : Nat) (hf : 4 ≤ fuel) (a : Universe) (hwf : a.WF) (uA uB : Ref)
    (h1 : Heap) (hd : pass_done fuel a a.toroidal uA uB a.rows 0 h1) :
    same_cells (h1.read uB) (next_generation a) := by
  obtain ⟨-, hrows, hcols, htor, hcells⟩ := hd
  refine ⟨hrows, hcols, htor, fun i j => ?_⟩
  rw [Bool.eq_iff_iff, get_next_generation]
  by_cases hin : i < a.rows ∧ j < a.cols
  · rw [hcells i j hin.1 hin.2 (Or.inl hin.1)]
    unfold rule_alive
    rw [uv_census_eq_neighbor_count fuel hf a hwf i j hin.1 hin.2]
    simp [hin]
  · have h0 : ¬ (0 ≤ i ∧ i < (h1.read uB).rows ∧ 0 ≤ j ∧ j < (h1.read uB).cols) := by
      rw [hrows, hcols]; exact fun hh => hin ⟨hh.2.1, hh.2.2.2⟩
    have hget : uv_get_cell (h1.read uB) i j = false := by
      unfold uv_get_cell; rw [if_neg h0]
    rw [hget]
    simp [hin]

/-- The buffers after `n` generations: the generation `n` is in the buffer
the local `uA` points to after the last exchange, the generation `n - 1` in
the other one. -/
theorem play_game_loop_buffers (fuel : Nat) (hf : 4 ≤ fuel) (silent : Bool) (n : Nat) :
    ∀ (uA uB : Ref) (h : Heap), uA ≠ uB → (h.read uA).WF →
      (h.read uB).rows = (h.read uA).rows → (h.read uB).cols = (h.read uA).cols →
      (h.read uB).toroidal = (h.read uA).toroidal →
      ∃ h1, play_game_loop fuel silent n uA uB h = some h1
        ∧ same_cells (h1.read (if n % 2 = 0 then uA else uB)) (generations n (h.read uA))
        ∧ (0 < n → same_cells (h1.read (if n % 2 = 0 then uB else uA))
            (generations (n - 1) (h.read uA))) := by
  induction n with
  | zero =>
    intro uA uB h _ _ _ _ _
    exact ⟨h, rfl, same_cells_refl _, fun h0 => absurd h0 (Nat.lt_irrefl 0)⟩
  | succ n ih =>
    intro uA uB h hne hwf hrows hcols htor
    obtain ⟨h1, hrun, hd⟩ := play_generation_pass fuel hf uA uB hne h hwf hrows hcols
    rw [htor] at hd
    have hnext := pass_done_next fuel hf (h.read uA) hwf uA uB h1 hd
    have hA : h1.read uA = h.read uA := hd.1
    have hwfB : (h1.read uB).WF := by
      unfold Universe.WF at hwf ⊢
      rw [hnext.1, hnext.2.1]
      exact hwf
    obtain ⟨h2, hrun2, hcur, hprev⟩ := ih uB uA h1 (Ne.symm hne) hwfB
      (by rw [hA, hnext.1]; rfl) (by rw [hA, hnext.2.1]; rfl) (by rw [hA, hnext.2.2.1]; rfl)
    refine ⟨h2, ?_, ?_, ?_⟩
    · unfold play_game_loop
      rw [hrun, Option.some_bind]
      simpa [show_evolution] using hrun2
    · have hflip : (if (n + 1) % 2 = 0 then uA else uB) = (if n % 2 = 0 then uB else uA) := by
        split_ifs <;> first | rfl | omega
      rw [hflip]
      exact same_cells_trans hcur (generations_congr n hnext)
    · intro _
      have hflip : (if (n + 1) % 2 = 0 then uB else uA) = (if n % 2 = 0 then uA else uB) := by
        split_ifs <;> first | rfl | omega
      rw [hflip, Nat.add_sub_cancel]
      cases n with
      | zero =>
        have h21 : h2 = h1 := by
          unfold play_game_loop at hrun2
          exact (Option.some.inj hrun2).symm
        rw [h21]
        show same_cells (h1.read uA) (h.read uA)
        rw [hA]
        exact same_cells_refl _
      | succ m =>
        have hp := hprev (Nat.succ_pos m)
        rw [Nat.add_sub_cancel] at hp
        exact same_cells_trans hp (generations_congr m hnext)

/-- What `play_game` leaves in the caller's two objects: for an even
generation count `uA` holds the generation `n`; for an odd one `uB` holds
the generation `n` and `uA` the generation `n - 1`. -/
theorem play_game_buffers (fuel : Nat) (hf : 4 ≤ fuel) (n : Nat) (uA uB : Ref) (silent : Bool)
    (h : Heap) (hne : uA ≠ uB) (hwf : (h.read uA).WF)
    (hrows : (h.read uB).rows = (h.read uA).rows) (hcols : (h.read uB).cols = (h.read uA).cols)
    (htor : (h.read uB).toroidal = (h.read uA).toroidal) :
    ∃ h1, play_game fuel n uA uB silent h = some h1
      ∧ (n % 2 = 0 → same_cells (h1.read uA) (generations n (h.read uA)))
      ∧ (n % 2 = 1 → same_cells (h1.read uB) (generations n (h.read uA))
          ∧ same_cells (h1.read uA) (generations (n - 1) (h.read uA))) := by
  obtain ⟨h1, hrun, hcur, hprev⟩ :=
    play_game_loop_buffers fuel hf silent n uA uB h hne hwf hrows hcols htor
  refine ⟨h1, hrun, ?_, ?_⟩
  · intro heven
    rw [if_pos heven] at hcur
    exact hcur
  · intro hodd
    have hne0 : ¬ n % 2 = 0 := by omega
    rw [if_neg hne0] at hcur
    have hp := hprev (by omega)
    rw [if_neg hne0] at hp
    exact ⟨hcur, hp⟩

/-- C1 (fails on the code): `play_game` exchanges only its local pointers, so
after an odd number of generations the object the caller passed as `uA` holds
the previous generation (`play_game_buffers`).  With a vertical blinker and one
generation, `uA` still prints the vertical blinker; the horizontal one, which
the rule yields, is in `uB`. -/
theorem play_game_one_generation_blinker :
    (play_game 4 1 Ref.A Ref.B true blinker_heap).map (fun h => uv_print (h.read Ref.A) [])
        = some ".o.\n.o.\n.o.\n".toList
      ∧ (play_game 4 1 Ref.A Ref.B true blinker_heap).map (fun h => uv_print (h.read Ref.B) [])
        = some "...\nooo\n...\n".toList
      ∧ uv_print (generations 1 blinker3) [] = "...\nooo\n...\n".toList := by
  refine ⟨?_, ?_, ?_⟩ <;> decide

/-! ## Creation and single-cell access -/

/-- C11: for every `rows`, `cols` (zero included) and either topology argument
the universe returned by `uv_create` has `uv_rows == rows`, `uv_cols == cols`
and `uv_get_cell(u, r, c) == false` for every `(r, c)`. -/
theorem uv_create_fresh (rows cols : Nat) (toroidal : Bool) :
    uv_rows (uv_create rows cols toroidal) = rows
      ∧ uv_cols (uv_create rows cols toroidal) = cols
      ∧ ∀ r c, uv_get_cell (uv_create rows cols toroidal) r c = false := by
  refine ⟨rfl, rfl, fun r c => ?_⟩
  unfold uv_get_cell
  split_ifs <;> rfl

/-- C12: for `(r, c)` with `r >= rows` or `c >= cols`, `uv_get_cell` returns
false and `uv_live_cell` and `uv_dead_cell` return the universe as it was. -/
theorem out_of_range_access (u : Universe) (r c : Nat) (h : r ≥ u.rows ∨ c ≥ u.cols) :
    uv_get_cell u r c = false ∧ uv_live_cell u r c = u ∧ uv_dead_cell u r c = u := by
  have hno : ¬ (0 ≤ r ∧ r < u.rows ∧ 0 ≤ c ∧ c < u.cols) := by omega
  unfold uv_get_cell uv_live_cell uv_dead_cell
  simp only [if_neg hno, and_self]

/-- C12 on the 3x3 blinker at `(3, 1)` and at `(0, 7)`. -/
theorem out_of_range_access_witness :
    (uv_get_cell blinker3 3 1 = false ∧ uv_live_cell blinker3 3 1 = blinker3
        ∧ uv_dead_cell blinker3 3 1 = blinker3)
      ∧ (uv_get_cell blinker3 0 7 = false ∧ uv_live_cell blinker3 0 7 = blinker3
        ∧ uv_dead_cell blinker3 0 7 = blinker3) :=
  ⟨out_of_range_access blinker3 3 1 (Or.inl (by decide)),
   out_of_range_access blinker3 0 7 (Or.inr (by decide))⟩

/-- C13: for an in-range `(r, c)`, the cell reads true after `uv_live_cell`
and false after `uv_dead_cell`; every other cell, the number of rows, the
number of columns and the topology flag are as before. -/
theorem in_range_write (u : Universe) (r c : Nat) (hr : r < u.rows) (hc : c < u.cols) :
    uv_get_cell (uv_live_cell u r c) r c = true
      ∧ uv_get_cell (uv_dead_cell u r c) r c = false
      ∧ (∀ r1 c1, (r1, c1) ≠ (r, c) →
          uv_get_cell (uv_live_cell u r c) r1 c1 = uv_get_cell u r1 c1
            ∧ uv_get_cell (uv_dead_cell u r c) r1 c1 = uv_get_cell u r1 c1)
      ∧ ((uv_live_cell u r c).rows = u.rows ∧ (uv_live_cell u r c).cols = u.cols
          ∧ (uv_live_cell u r c).toroidal = u.toroidal)
      ∧ ((uv_dead_cell u r c).rows = u.rows ∧ (uv_dead_cell u r c).cols = u.cols
          ∧ (uv_dead_cell u r c).toroidal = u.toroidal) := by
  refine ⟨?_, ?_, ?_, live_cell_dims u r c, dead_cell_dims u r c⟩
  · rw [get_live_cell u r c r c hr hc]; simp
  · rw [get_dead_cell u r c r c hr hc]; simp
  · intro r1 c1 hne
    have hij : ¬ (r1 = r ∧ c1 = c) := fun hh => hne (by rw [hh.1, hh.2])
    rw [get_live_cell u r c r1 c1 hr hc, get_dead_cell u r c r1 c1 hr hc]
    simp only [hij, if_false, and_self]

/-- C13 on the 3x3 blinker: writing the centre `(1, 1)` and reading it and
the cell `(0, 1)` above it. -/
theorem in_range_write_witness :
    uv_get_cell (uv_live_cell blinker3 1 1) 1 1 = true
      ∧ uv_get_cell (uv_dead_cell blinker3 1 1) 1 1 = false
      ∧ uv_get_cell (uv_dead_cell blinker3 1 1) 0 1 = uv_get_cell blinker3 0 1
      ∧ (uv_dead_cell blinker3 1 1).rows = blinker3.rows :=
  ⟨(in_range_write blinker3 1 1 (by decide) (by decide)).1,
   (in_range_write blinker3 1 1 (by decide) (by decide)).2.1,
   ((in_range_write blinker3 1 1 (by decide) (by decide)).2.2.1 0 1 (by decide)).2,
   (in_range_write blinker3 1 1 (by decide) (by decide)).2.2.2.2.1⟩

/-- C14: the standard glider on a flat 5x5 universe, evolved 4 generations by
`play_game` with a fresh 5x5 next buffer: the universe passed as `uA` ends
with exactly the cells `(1,2), (2,3), (3,1), (3,2), (3,3)` alive, the glider
moved by `(+1, +1)`. -/
theorem glider_four_generations :
    (play_game 4 4 Ref.A Ref.B true glider_heap).map (fun h => live_cells (h.read Ref.A))
        = some [(1, 2), (2, 3), (3, 1), (3, 2), (3, 3)]
      ∧ (play_game 4 4 Ref.A Ref.B true glider_heap).map (fun h => uv_print (h.read Ref.A) [])
        = some ".....\n..o..\n...o.\n.ooo.\n.....\n".toList
      ∧ live_cells glider5 = [(0, 1), (1, 2), (2, 0), (2, 1), (2, 2)] := by
  set_option maxRecDepth 1000000 in
  refine ⟨?_, ?_, ?_⟩ <;> decide

/-! ## Generations: the next buffer and the all-dead universe -/

theorem get_out_of_range (u : Universe) (i j : Nat) (h : ¬ (i < u.rows ∧ j < u.cols)) :
    uv_get_cell u i j = false := by
  have h0 : ¬ (0 ≤ i ∧ i < u.rows ∧ 0 ≤ j ∧ j < u.cols) := fun hh => h ⟨hh.2.1, hh.2.2.2⟩
  unfold uv_get_cell
  rw [if_neg h0]

/-- C19: a generation depends only on the current buffer.  For two heaps with
the same current universe `uA` and any two next buffers of its dimensions,
whatever their cells held, the pass ends on both and leaves the same cells in
the next buffer. -/
theorem play_generation_next_buffer (fuel : Nat) (hf : 4 ≤ fuel) (uA uB : Ref) (hne : uA ≠ uB)
    (h1 h2 : Heap) (hcur : h2.read uA = h1.read uA) (hwf : (h1.read uA).WF)
    (hrows1 : (h1.read uB).rows = (h1.read uA).rows)
    (hcols1 : (h1.read uB).cols = (h1.read uA).cols)
    (hrows2 : (h2.read uB).rows = (h1.read uA).rows)
    (hcols2 : (h2.read uB).cols = (h1.read uA).cols) :
    ∃ k1 k2, play_generation fuel uA uB h1 = some k1 ∧ play_generation fuel uA uB h2 = some k2
      ∧ ∀ i j, uv_get_cell (k1.read uB) i j = uv_get_cell (k2.read uB) i j := by
  obtain ⟨k1, hrun1, -, hr1, hc1, -, hcells1⟩ :=
    play_generation_pass fuel hf uA uB hne h1 hwf hrows1 hcols1
  obtain ⟨k2, hrun2, -, hr2, hc2, -, hcells2⟩ :=
    play_generation_pass fuel hf uA uB hne h2 (by rw [hcur]; exact hwf)
      (by rw [hcur]; exact hrows2) (by rw [hcur]; exact hcols2)
  rw [hcur] at hr2 hc2 hcells2
  refine ⟨k1, k2, hrun1, hrun2, fun i j => ?_⟩
  by_cases hin : i < (h1.read uA).rows ∧ j < (h1.read uA).cols
  · rw [Bool.eq_iff_iff, hcells1 i j hin.1 hin.2 (Or.inl hin.1),
      hcells2 i j hin.1 hin.2 (Or.inl hin.1)]
  · rw [get_out_of_range _ i j (by rw [hr1, hc1]; exact hin),
      get_out_of_range _ i j (by rw [hr2, hc2]; exact hin)]

/-- C19 on the blinker with a fresh and with a stale next buffer. -/
theorem play_generation_next_buffer_witness :
    ∃ k1 k2, play_generation 4 Ref.A Ref.B blinker_heap = some k1
      ∧ play_generation 4 Ref.A Ref.B stale_heap = some k2
      ∧ ∀ i j, uv_get_cell (k1.read Ref.B) i j = uv_get_cell (k2.read Ref.B) i j :=
  play_generation_next_buffer 4 (by decide) Ref.A Ref.B (by decide) blinker_heap stale_heap
    rfl (by decide) rfl rfl rfl rfl

theorem block_count_dead (u : Universe) (r c : Nat) (hdead : ∀ i j, uv_get_cell u i j = false) :
    block_count u r c = 0 := by
  unfold block_count census_range census_term
  split_ifs <;> simp [hdead]

theorem wrap_count_dead (u : Universe) (r c : Nat) (hdead : ∀ i j, uv_get_cell u i j = false) :
    wrap_count u r c = 0 := by
  unfold wrap_count
  simp [hdead]

/-- In a universe without live cells no cell comes alive by the rule. -/
theorem rule_alive_dead (fuel : Nat) (hf : 4 ≤ fuel) (u : Universe) (hwf : u.WF)
    (hdead : ∀ i j, uv_get_cell u i j = false) (i j : Nat) (hi : i < u.rows) (hj : j < u.cols) :
    ¬ rule_alive fuel u i j := by
  unfold rule_alive
  rw [uv_census_closed fuel hf u hwf i j hi hj, block_count_dead u i j hdead,
    wrap_count_dead u i j hdead, hdead]
  simp

theorem play_game_loop_dead (fuel : Nat) (hf : 4 ≤ fuel) (silent : Bool) (n : Nat) :
    ∀ (uA uB : Ref) (h : Heap), uA ≠ uB → (h.read uA).WF →
      (h.read uB).rows = (h.read uA).rows → (h.read uB).cols = (h.read uA).cols →
      (∀ i j, uv_get_cell (h.read uA) i j = false) →
      (∀ i j, uv_get_cell (h.read uB) i j = false) →
      ∃ h1, play_game_loop fuel silent n uA uB h = some h1
        ∧ (∀ i j, uv_get_cell (h1.read uA) i j = false)
        ∧ (∀ i j, uv_get_cell (h1.read uB) i j = false) := by
  induction n with
  | zero =>
    intro uA uB h _ _ _ _ hA hB
    exact ⟨h, rfl, hA, hB⟩
  | succ n ih =>
    intro uA uB h hne hwf hrows hcols hA hB
    obtain ⟨h1, hrun, hA1, hr1, hc1, -, hcells⟩ :=
      play_generation_pass fuel hf uA uB hne h hwf hrows hcols
    have hB1 : ∀ i j, uv_get_cell (h1.read uB) i j = false := by
      intro i j
      by_cases hin : i < (h.read uA).rows ∧ j < (h.read uA).cols
      · have hno := rule_alive_dead fuel hf (h.read uA) hwf hA i j hin.1 hin.2
        rw [← hcells i j hin.1 hin.2 (Or.inl hin.1)] at hno
        simpa using hno
      · exact get_out_of_range _ i j (by rw [hr1, hc1]; exact hin)
    have hwfB : (h1.read uB).WF := by
      unfold Universe.WF at hwf ⊢
      rw [hr1, hc1]; exact hwf
    obtain ⟨h2, hrun2, hB2, hA2⟩ := ih uB uA h1 (Ne.symm hne) hwfB
      (by rw [hA1, hr1]) (by rw [hA1, hc1]) hB1 (by rw [hA1]; exact hA)
    refine ⟨h2, ?_, hA2, hB2⟩
    unfold play_game_loop
    rw [hrun, Option.some_bind]
    simpa [show_evolution] using hrun2

/-- C15: for every `rows`, `cols`, topology flag and generation count `n`,
`play_game` on a universe with no live cells and a fresh next buffer of the
same dimensions returns and leaves every cell of both buffers dead. -/
theorem play_game_all_dead (fuel : Nat) (hf : 4 ≤ fuel) (n : Nat) (silent : Bool)
    (u : Universe) (hwf : u.WF) (hdead : ∀ i j, uv_get_cell u i j = false) (toroidal : Bool) :
    ∃ h1, play_game fuel n Ref.A Ref.B silent
          { objA := u, objB := uv_create u.rows u.cols toroidal } = some h1
      ∧ ∀ i j, uv_get_cell (h1.read Ref.A) i j = false
          ∧ uv_get_cell (h1.read Ref.B) i j = false := by
  obtain ⟨h1, hrun, hA, hB⟩ := play_game_loop_dead fuel hf silent n Ref.A Ref.B
    { objA := u, objB := uv_create u.rows u.cols toroidal } (by decide) hwf rfl rfl hdead
    (fun i j => by
      show uv_get_cell (uv_create u.rows u.cols toroidal) i j = false
      unfold uv_get_cell
      split_ifs <;> rfl)
  exact ⟨h1, hrun, fun i j => ⟨hA i j, hB i j⟩⟩

/-- C15 on an all-dead 2x3 universe with the flag set, three generations. -/
theorem play_game_all_dead_witness :
    ∃ h1, play_game 4 3 Ref.A Ref.B false
          { objA := universe_of 2 3 true [],
            objB := uv_create (universe_of 2 3 true []).rows (universe_of 2 3 true []).cols true }
          = some h1
      ∧ ∀ i j, uv_get_cell (h1.read Ref.A) i j = false
          ∧ uv_get_cell (h1.read Ref.B) i j = false :=
  play_game_all_dead 4 (by decide) 3 false (universe_of 2 3 true []) (by decide)
    (fun i j => by
      show uv_get_cell (universe_of 2 3 true []) i j = false
      unfold uv_get_cell
      split_ifs <;> rfl) true

/-! ## The toroidal census at the edges -/

/-- C16 as stated fails: in the 1x3 universe with the flag set and only
`(0, 0)` alive the census of `(0, 2)` is `0`, not `1`; the census of `(0, 1)`
is `1`. -/
theorem single_row_wrap_counterexample :
    ring3.toroidal = true ∧ ring3.rows = 1 ∧ ring3.cols = 3
      ∧ live_cells ring3 = [(0, 0)]
      ∧ uv_census 4 ring3 0 1 = some 1
      ∧ uv_census 4 ring3 0 (3 - 1) = some 0
      ∧ ¬ (uv_census 4 ring3 0 1 = some 1 ∧ uv_census 4 ring3 0 (3 - 1) = some 1) := by
  refine ⟨rfl, rfl, rfl, by decide, by decide, by decide, by decide⟩

/-- C16 amended: for every `N >= 2`, in a universe of 1 row and `N` columns
with the flag set whose only live cell is `(0, 0)`, the census of `(0, 1)` is
`1`, and the census of `(0, N - 1)` is `1` when `N = 2` (the same cell) and `0`
when `N >= 3`: the column wrap is not applied in the first and last row. -/
theorem single_row_census (fuel : Nat) (hf : 4 ≤ fuel) (N : Nat) (hN : 2 ≤ N)
    (hN32 : N < UINT32_MOD) (u : Universe) (hrows : u.rows = 1) (hcols : u.cols = N)
    (htor : u.toroidal = true)
    (hcells : ∀ i j, uv_get_cell u i j = true ↔ (i = 0 ∧ j = 0)) :
    uv_census fuel u 0 1 = some 1
      ∧ uv_census fuel u 0 (N - 1) = some (if N = 2 then 1 else 0) := by
  have hwf : u.WF := by
    unfold Universe.WF UINT32_MOD at *
    omega
  have h00 : uv_get_cell u 0 0 = true := (hcells 0 0).2 ⟨rfl, rfl⟩
  have hoff : ∀ j, j ≠ 0 → uv_get_cell u 0 j = false := by
    intro j hj
    cases hg : uv_get_cell u 0 j with
    | false => rfl
    | true => exact absurd ((hcells 0 j).1 hg).2 hj
  constructor
  · rw [uv_census_eq_neighbor_count fuel hf u hwf 0 1 (by omega) (by omega)]
    unfold neighbor_count
    rw [clipped_count_eq_block]
    unfold block_count wrap_count census_range census_term
    rw [hrows, hcols, htor]
    have h1 := hoff 1 (by omega)
    have h2 := hoff 2 (by omega)
    by_cases hN2 : N = 2
    · subst hN2
      simp [h00, h1]
    · have hne : ¬ (1 + 1 = N) := by omega
      have hne1 : ¬ (1 = N - 1) := by omega
      simp [h00, h1, h2, hne, hne1]
  · rw [uv_census_eq_neighbor_count fuel hf u hwf 0 (N - 1) (by omega) (by omega)]
    unfold neighbor_count
    rw [clipped_count_eq_block]
    unfold block_count wrap_count census_range census_term
    rw [hrows, hcols, htor]
    have hlast := hoff (N - 1) (by omega)
    by_cases hN2 : N = 2
    · subst hN2
      simp [h00, hlast]
    · have hprev := hoff (N - 1 - 1) (by omega)
      have hn0 : ¬ (N - 1 = 0) := by omega
      have hn1 : N - 1 + 1 = N := by omega
      simp [h00, hlast, hprev, hn0, hn1, hN2]

/-- C16 amended, at `N = 3`. -/
theorem single_row_census_witness :
    uv_census 4 ring3 0 1 = some 1
      ∧ uv_census 4 ring3 0 (3 - 1) = some (if 3 = 2 then 1 else 0) :=
  single_row_census 4 (by decide) 3 (by decide) (by decide) ring3 rfl rfl rfl
    (fun i j => by
      constructor
      · intro hg
        have hin : i < 1 ∧ j < 3 := by
          by_contra hno
          have := get_out_of_range ring3 i j hno
          rw [hg] at this
          exact Bool.noConfusion this
        obtain ⟨hi, hj⟩ := hin
        interval_cases i
        interval_cases j
        · exact ⟨rfl, rfl⟩
        · exact absurd hg (by decide)
        · exact absurd hg (by decide)
      · rintro ⟨rfl, rfl⟩
        decide)

/-- C17 as stated fails: in the 3x3 universe with the flag set and only
`(0, 2)` alive the census of the corner `(0, 0)` is `0`, while one of the
five cells `(0,1), (1,0), (1,1), (2,0), (0,2)` is alive. -/
theorem corner_column_wrap_counterexample :
    torus3_col.toroidal = true ∧ torus3_col.rows = 3 ∧ torus3_col.cols = 3
      ∧ uv_census 4 torus3_col 0 0 = some 0
      ∧ count_live torus3_col [(0, 1), (1, 0), (1, 1), (2, 0), (0, 2)] = 1
      ∧ ¬ (uv_census 4 torus3_col 0 0
            = some (count_live torus3_col [(0, 1), (1, 0), (1, 1), (2, 0), (0, 2)])) := by
  refine ⟨rfl, rfl, rfl, by decide, by decide, by decide⟩

/-- C17 amended: in every 3x3 universe with the flag set the census of the
corner `(0, 0)` counts the row-wrap neighbour `(2, 0)` exactly once and counts
neither the column-wrap neighbour `(0, 2)` nor the diagonal wrap `(2, 2)`: it
is the number of live cells among `(0,1), (1,0), (1,1), (2,0)`. -/
theorem corner_census (fuel : Nat) (hf : 4 ≤ fuel) (u : Universe) (hrows : u.rows = 3)
    (hcols : u.cols = 3) (htor : u.toroidal = true) :
    uv_census fuel u 0 0 = some (count_live u [(0, 1), (1, 0), (1, 1), (2, 0)]) := by
  have hwf : u.WF := by
    unfold Universe.WF UINT32_MOD
    omega
  rw [uv_census_eq_neighbor_count fuel hf u hwf 0 0 (by omega) (by omega)]
  unfold neighbor_count
  rw [clipped_count_eq_block]
  unfold block_count wrap_count census_range census_term count_live
  rw [hrows, hcols, htor]
  cases h01 : uv_get_cell u 0 1 <;> cases h10 : uv_get_cell u 1 0 <;>
    cases h11 : uv_get_cell u 1 1 <;> cases h20 : uv_get_cell u 2 0 <;>
    simp [List.filter, h01, h10, h11, h20]

/-- C17 amended, on the universe with only `(2, 0)` alive: census 1. -/
theorem corner_census_witness :
    uv_census 4 torus3 0 0 = some (count_live torus3 [(0, 1), (1, 0), (1, 1), (2, 0)])
      ∧ count_live torus3 [(0, 1), (1, 0), (1, 1), (2, 0)] = 1 :=
  ⟨corner_census 4 (by decide) torus3 rfl rfl rfl, by decide⟩

/-! ## The census and the cell itself -/

theorem census_term_congr (u v : Universe) (r c i j : Nat)
    (hsame : ∀ i j, (i, j) ≠ (r, c) → uv_get_cell u i j = uv_get_cell v i j) :
    census_term u r c i j = census_term v r c i j := by
  unfold census_term
  by_cases hij : i = r ∧ j = c
  · simp [hij]
  · rw [hsame i j (fun hh => hij ⟨(Prod.mk.inj hh).1, (Prod.mk.inj hh).2⟩)]

theorem wrap_term_congr (P : Prop) [Decidable P] (b1 b2 : Bool) (h : P → b1 = b2) :
    (if P ∧ b1 = true then 1 else 0) = (if P ∧ b2 = true then 1 else 0) := by
  by_cases hP : P
  · rw [h hP]
  · simp [hP]

theorem wrap_term3_congr (P Q R : Prop) [Decidable P] [Decidable Q] [Decidable R]
    (b1 b2 : Bool) (h : P → Q → R → b1 = b2) :
    (if P ∧ Q ∧ R ∧ b1 = true then 1 else 0) = (if P ∧ Q ∧ R ∧ b2 = true then 1 else 0) := by
  by_cases hP : P <;> by_cases hQ : Q <;> by_cases hR : R
  · rw [h hP hQ hR]
  all_goals simp [hP, hQ, hR]

/-- Where no wrap-around check lands on the cell itself the census does not
depend on the cell's own state: in a flat universe, and in a toroidal one with
at least two rows whose cell `(r, c)` is in the first or last row or has at
least two columns. -/
theorem uv_census_ignores_self (fuel : Nat) (hf : 4 ≤ fuel) (u v : Universe) (hwf : u.WF)
    (hrows : v.rows = u.rows) (hcols : v.cols = u.cols) (htor : v.toroidal = u.toroidal)
    (r c : Nat) (hr : r < u.rows) (hc : c < u.cols)
    (hsame : ∀ i j, (i, j) ≠ (r, c) → uv_get_cell u i j = uv_get_cell v i j)
    (hshape : u.toroidal = false
      ∨ (1 < u.rows ∧ (1 < u.cols ∨ r = 0 ∨ r = u.rows - 1))) :
    uv_census fuel u r c = uv_census fuel v r c := by
  have hwfv : v.WF := by
    unfold Universe.WF at hwf ⊢
    rw [hrows, hcols]; exact hwf
  rw [uv_census_closed fuel hf u hwf r c hr hc,
    uv_census_closed fuel hf v hwfv r c (by omega) (by omega), htor]
  have hblock : block_count u r c = block_count v r c := by
    unfold block_count
    rw [hrows, hcols]
    simp only [census_term_congr u v r c _ _ hsame]
  rw [hblock]
  cases ht : u.toroidal with
  | false => rfl
  | true =>
    have hsh : 1 < u.rows ∧ (1 < u.cols ∨ r = 0 ∨ r = u.rows - 1) := by
      rcases hshape with h | h
      · rw [ht] at h; exact Bool.noConfusion h
      · exact h
    have hw : wrap_count u r c = wrap_count v r c := by
      unfold wrap_count
      rw [hrows, hcols]
      have e1 := wrap_term_congr (r = 0) (uv_get_cell u (u.rows - 1) c)
        (uv_get_cell v (u.rows - 1) c)
        (fun h0 => hsame _ _ (fun hh => by have := (Prod.mk.inj hh).1; omega))
      have e2 := wrap_term_congr (r = u.rows - 1) (uv_get_cell u 0 c) (uv_get_cell v 0 c)
        (fun h0 => hsame _ _ (fun hh => by have := (Prod.mk.inj hh).1; omega))
      have e3 := wrap_term3_congr (c = 0) (r ≠ 0) (r ≠ u.rows - 1)
        (uv_get_cell u r (u.cols - 1)) (uv_get_cell v r (u.cols - 1))
        (fun h0 h1 h2 => hsame _ _ (fun hh => by have := (Prod.mk.inj hh).2; omega))
      have e4 := wrap_term3_congr (c = u.cols - 1) (r ≠ 0) (r ≠ u.rows - 1)
        (uv_get_cell u r 0) (uv_get_cell v r 0)
        (fun h0 h1 h2 => hsame _ _ (fun hh => by have := (Prod.mk.inj hh).2; omega))
      rw [e1, e2, e3, e4]
    simp only [if_true, hw]

/-- C18 (fails on the code): with the toroidal flag set and a single row the
two row-wrap checks read the cell itself.  In the universe of one cell the
census of `(0, 0)` is `2` when the cell is alive and `0` when it is dead; in the
1x3 universe with only `(0, 0)` alive the census of `(0, 0)` is `2` and drops
to `0` when the cell is cleared. -/
theorem uv_census_counts_self :
    uv_census 4 (uv_live_cell point_torus 0 0) 0 0 = some 2
      ∧ uv_census 4 (uv_dead_cell point_torus 0 0) 0 0 = some 0
      ∧ uv_census 4 ring3 0 0 = some 2
      ∧ uv_census 4 (uv_dead_cell ring3 0 0) 0 0 = some 0 := by
  refine ⟨by decide, by decide, by decide, by decide⟩

/-! ## Census loops that never end -/

/-- A loop `for (i = ...; i <= hi; i++)` whose bound is the largest `uint32_t`
never leaves: no amount of fuel gives a result. -/
theorem for_le32_diverges {σ : Type} (body : Nat → σ → Option σ) (hi : Nat)
    (hhi : UINT32_MOD - 1 ≤ hi) :
    ∀ (fuel i : Nat) (s : σ), i < UINT32_MOD → for_le32 body hi fuel i s = none := by
  intro fuel
  induction fuel with
  | zero => intro i s _; rfl
  | succ fuel ih =>
    intro i s hi32
    have hle : i ≤ hi := by omega
    have hnext : add32 i 1 < UINT32_MOD := Nat.mod_lt _ (by unfold UINT32_MOD; omega)
    unfold for_le32
    rw [if_pos hle]
    cases body i s with
    | none => rfl
    | some s1 => exact ih (add32 i 1) s1 hnext

/-- A loop whose first body run does not return does not return. -/
theorem for_le32_body_none {σ : Type} (body : Nat → σ → Option σ) (hi fuel i : Nat) (s : σ)
    (hle : i ≤ hi) (hb : body i s = none) : for_le32 body hi fuel i s = none := by
  cases fuel with
  | zero => rfl
  | succ fuel =>
    unfold for_le32
    rw [if_pos hle, hb]
    rfl

theorem uv_census_unfold (fuel : Nat) (u : Universe) (r c : Nat) :
    uv_census fuel u r c
      = (for_le32
          (fun i n => for_le32 (fun j n => some (census_cell u r c i j n))
            (census_high c u.cols) fuel (census_low c) n)
          (census_high r u.rows) fuel (census_low r) 0).map (census_wrap u r c) := rfl

/-- The row loop of `uv_census` does not end when `r + 1` is the largest
`uint32_t` and `r` is not the last row. -/
theorem uv_census_row_diverges (u : Universe) (c : Nat)
    (hlast : sub32 u.rows 1 ≠ 4294967294) (fuel : Nat) :
    uv_census fuel u 4294967294 c = none := by
  have hhigh : census_high 4294967294 u.rows = 4294967295 := by
    unfold census_high
    rw [if_neg (fun h => hlast h.symm)]
    rfl
  rw [uv_census_unfold, hhigh, for_le32_diverges _ _ (by unfold UINT32_MOD; omega) fuel _ 0]
  · rfl
  · decide

/-- The column loop of `uv_census` does not end when `c + 1` is the largest
`uint32_t` and `c` is not the last column, for an in-range row. -/
theorem uv_census_col_diverges (u : Universe) (hwf : u.WF) (r : Nat) (hr : r < u.rows)
    (hlast : sub32 u.cols 1 ≠ 4294967294) (fuel : Nat) :
    uv_census fuel u r 4294967294 = none := by
  have hhigh : census_high 4294967294 u.cols = 4294967295 := by
    unfold census_high
    rw [if_neg (fun h => hlast h.symm)]
    rfl
  obtain ⟨-, hlen, -, -⟩ := census_range_spec r u.rows hr hwf.1
  have hpos : 0 < (census_range r u.rows).length := by
    unfold census_range; split_ifs <;> simp
  rw [uv_census_unfold, hhigh, for_le32_body_none _ _ fuel _ 0 (by omega)]
  · rfl
  · exact for_le32_diverges _ _ (by unfold UINT32_MOD; omega) fuel _ 0
      (by decide)

/-- C20 (fails on the code): `uv_census` is not total.  On a 3x3 universe the
row loop never ends for `r = 2^32 - 2` and the column loop never ends for
`c = 2^32 - 2`, and on a universe without rows the row loop never ends for
`r = 2^32 - 1`: whatever the fuel, no count is returned. -/
theorem uv_census_not_total (fuel : Nat) :
    uv_census fuel (uv_create 3 3 false) 4294967294 0 = none
      ∧ uv_census fuel (uv_create 3 3 false) 0 4294967294 = none
      ∧ uv_census fuel (uv_create 0 0 false) 4294967295 0 = none := by
  refine ⟨uv_census_row_diverges _ 0 (by decide) fuel,
    uv_census_col_diverges _ (by decide) 0 (by decide) (by decide) fuel, ?_⟩
  have hhigh : census_high 4294967295 (uv_create 0 0 false).rows = 4294967295 := by decide
  rw [uv_census_unfold, hhigh, for_le32_diverges _ _ (by unfold UINT32_MOD; omega) fuel _ 0]
  · rfl
  · decide

end LifeSim
